import Mathlib

/-!
Verification development for the `gac-package` repository's deterministic
commit-message synthesis engine.

The translations below follow the TypeScript sources:
  * namespace `Heuristic` embeds the engine revision in
    `src/src/engines/heuristic.ts` (the document starting at line 248:
    `generateHeuristic`, `detectPrimaryFocus`, `buildDescriptions`,
    `detectChangeType`, `detectScope`, `categorizeFiles`, `pickVerb`,
    `seededIndex`, `generateAlternative`, ...).
  * namespace `P1` embeds the functions of the engine revision in
    `src/unnamed/part_001` (the document starting at line 431) that the
    claims cite: `detectChangeType`, the `docsSignificant` computation,
    the description-rotation step, and the fallback-literal injection.
  * namespace `Generator` embeds `src/src/generator.ts`
    (`generateCandidates` / `enforceMaxLength`) on the deterministic
    (`engine = none`) path; network engines are out of scope.

Modelling conventions:
  * JavaScript strings are modelled as `Str := List Char`.
  * JavaScript numbers that the engine uses are non-negative integers
    (file counts, churn counts, the `regen` counter); they are modelled
    as `Nat`.  The two fractional comparisons in the source
    (`x >= total * 0.6`, `x >= total * 0.4`, `>= 0.5`, `* 0.7`) are
    modelled by the equivalent integer comparisons
    (`Math.ceil(t * 0.6)` becomes `(3*t+4)/5` etc.); for the integer
    ranges reachable from diffs the double-precision computation and the
    rational computation agree.
  * `String.prototype.toUpperCase` / `toLowerCase` are modelled on the
    ASCII range (the engine only case-maps its own ASCII vocabulary and
    ASCII path characters).
  * JavaScript regular-expression tests are translated predicate by
    predicate; `\b`-delimited alternations of word-only tokens are
    decided on the maximal word-character runs of the subject string,
    which is equivalent for such patterns.
  * Array indexing that is provably in bounds in the source is modelled
    with `List.getD`; the default is unreachable.
-/

set_option maxRecDepth 4000

/-- JavaScript strings, modelled as lists of characters. -/
abbrev Str := List Char

/-- Coerce a Lean string literal to `Str`. -/
def str (s : String) : Str := s.data

/-- Word characters of JavaScript's `\w` / `\b` classes. -/
def isWordChar (c : Char) : Bool :=
  (('a' ≤ c && c ≤ 'z') || ('A' ≤ c && c ≤ 'Z') || ('0' ≤ c && c ≤ '9') || c = '_')

/-- Whitespace characters for JavaScript's `\s` and `String.prototype.trim`
(ASCII subset; the engine's own vocabulary contains only ASCII blanks). -/
def isWs (c : Char) : Bool :=
  (c = ' ' || c = '\t' || c = '\n' || c = '\r' || c = '\x0b' || c = '\x0c')

/-- ASCII lower-casing of one character (models the ASCII fragment of
`String.prototype.toLowerCase`). -/
def lowerChar (c : Char) : Char :=
  if 'A' ≤ c && c ≤ 'Z' then Char.ofNat (c.toNat + 32) else c

/-- ASCII upper-casing of one character (models the ASCII fragment of
`String.prototype.toUpperCase`). -/
def upperChar (c : Char) : Char :=
  if 'a' ≤ c && c ≤ 'z' then Char.ofNat (c.toNat - 32) else c

/-- `s.toLowerCase()` on the ASCII range. -/
def toLowerStr (s : Str) : Str := s.map lowerChar

/-- Does `small` occur as a contiguous substring of `s`?  (JavaScript
`s.includes(small)` / an unanchored literal regular expression.) -/
def containsSub (s small : Str) : Bool :=
  (List.range (s.length + 1)).any (fun i => small.isPrefixOf (s.drop i))

/-- `s.endsWith suffs` for any of the given literal endings. -/
def endsWithAny (s : Str) (suffs : List Str) : Bool :=
  suffs.any (fun suf => suf.isSuffixOf s)

/-- Maximal runs of word characters in a string: the regions delimited by
JavaScript `\b` word boundaries. -/
def wordRuns : Str → List Str
  | [] => []
  | c :: rest =>
    let rs := wordRuns rest
    if isWordChar c then
      match rest with
      | [] => [[c]]
      | c2 :: _ =>
        if isWordChar c2 then
          match rs with
          | r :: rs2 => (c :: r) :: rs2
          | [] => [[c]]
        else [c] :: rs
    else rs

/-- `/\b(t1|t2|...)\b/i.test s` for word-only tokens `ti` (given lower-cased):
some maximal word run of `s` equals one of the tokens. -/
def hasWordToken (tokens : List Str) (s : Str) : Bool :=
  (wordRuns (toLowerStr s)).any (fun r => tokens.contains r)

/-- `/\btok/i.test s` (leading word boundary only): some maximal word run
starts with the token. -/
def hasRunLead (tok : Str) (s : Str) : Bool :=
  (wordRuns (toLowerStr s)).any (fun r => tok.isPrefixOf r)

/-- `/tok\b/i.test s` (trailing word boundary only): some maximal word run
ends with the token. -/
def hasRunTail (tok : Str) (s : Str) : Bool :=
  (wordRuns (toLowerStr s)).any (fun r => tok.isSuffixOf r)

/-- Case-insensitive substring test. -/
def containsSubCI (s small : Str) : Bool :=
  containsSub (toLowerStr s) small

/-- Split a string at every occurrence of `sep` (JavaScript
`s.split(sep)`; the empty string splits to `[""]`). -/
def splitOnChar (sep : Char) (s : Str) : List Str :=
  s.foldr
    (fun c acc =>
      match acc with
      | cur :: rest => if c = sep then [] :: (cur :: rest) else (c :: cur) :: rest
      | [] => [[c]])
    [[]]

/-- `String.prototype.trim` (whitespace from both ends). -/
def trimStr (s : Str) : Str :=
  ((s.dropWhile isWs).reverse.dropWhile isWs).reverse

/-- `n` rendered in decimal (JavaScript template interpolation of an
integer). -/
def natToStr (n : Nat) : Str := Nat.toDigits 10 n

/-- Sum of JavaScript `charCodeAt` over a string (the engine's salt
computation). -/
def charCodeSum (s : Str) : Nat := s.foldl (fun a c => a + c.toNat) 0

/-- `s.replace(/\.[^.]+$/, '')`: drop the final dot-extension, when the
string ends in a dot followed by one or more non-dot characters. -/
def dropExt (s : Str) : Str :=
  let rev := s.reverse
  let ext := rev.takeWhile (fun c => c ≠ '.')
  if ext.length > 0 && ext.length < s.length && s.getD (s.length - ext.length - 1) ' ' = '.' then
    s.take (s.length - ext.length - 1)
  else s

/-- `p.replace(/\\/g, '/')`: normalize backslashes to slashes. -/
def slashNorm (p : Str) : Str := p.map (fun c => if c = '\\' then '/' else c)

/-- The file-status letters of `git diff --name-status` that the engine
consumes (see `src/src/git.ts`). -/
inductive FStatus where
  | A | M | D | R | C
deriving DecidableEq, Repr

/-- One staged file change (`FileChange` in `src/src/git.ts`). -/
structure FileChange where
  path : Str
  status : FStatus
  additions : Nat
  deletions : Nat
  summary : Str
deriving DecidableEq, Repr

/-- The aggregate input (`StagedChanges` in `src/src/git.ts`); the engine
reads only `files` and `diff`. -/
structure ChangeSet where
  files : List FileChange
  diff : Str
  branch : Str
  repoName : Str
deriving DecidableEq, Repr

/-- The requested message style (`Config.style` in `src/src/config.ts`). -/
inductive MsgStyle where
  | plain | conv | gitmoji | mix
deriving DecidableEq, Repr

/-- The configuration fields the deterministic path reads
(`style`, `regen`, `maxLen` of `Config`). -/
structure Config where
  msgStyle : MsgStyle
  regen : Nat
  maxLen : Nat
deriving DecidableEq, Repr

/-- A `(verb, noun)` description candidate (the engine's internal
description records). -/
structure Desc where
  verb : Str
  noun : Str
deriving DecidableEq, Repr

namespace Heuristic

/-- `isDocFile` (heuristic.ts line 849): case-insensitive doc-extension test. -/
def isDocFile (p : Str) : Bool :=
  endsWithAny (toLowerStr p) [str ".md", str ".txt", str ".rst", str ".adoc"]

/-- `seededIndex` (heuristic.ts lines 1152-1155): the deterministic
linear-congruential mix used for all pool selections. -/
def seededIndex (len seed salt : Nat) : Nat :=
  let mixed := (seed * 9301 + 49297 + salt * 233) % 233280
  if 0 < len then mixed % len else 0

/-- Which kind of phrase a verb is picked for (`'code' | 'docs'`). -/
inductive VerbDomain where
  | code | docs
deriving DecidableEq, Repr

/-- The verb pools of `pickVerb` (heuristic.ts lines 950-958), with the
`pools[key] || pools.default` fallback folded in. -/
def poolsFn (key : Str) : List Str :=
  if key = str "docs" then [str "clarify", str "update", str "improve", str "refine"]
  else if key = str "refactor" then [str "adjust", str "refactor", str "simplify", str "restructure"]
  else if key = str "chore" then [str "refine", str "update", str "tune", str "maintain"]
  else if key = str "feat" then [str "introduce", str "add", str "implement"]
  else if key = str "fix" then [str "fix", str "address", str "resolve", str "correct"]
  else if key = str "perf" then [str "optimize", str "improve", str "enhance"]
  else [str "update", str "improve", str "modify"]

/-- The pool key chosen by `pickVerb` (line 959). -/
def verbKey (type : Str) (domain : VerbDomain) : Str :=
  if domain = VerbDomain.docs then str "docs"
  else if type = str "docs" || type = str "refactor" || type = str "chore" ||
          type = str "feat" || type = str "fix" || type = str "perf" || type = str "default"
  then type
  else str "default"

/-- `pickVerb` (heuristic.ts lines 949-964).  The selected index is provably
in range, so `getD`'s default is unreachable. -/
def pickVerb (type : Str) (domain : VerbDomain) (variant : Nat) : Str :=
  let key := verbKey type domain
  let pool := poolsFn key
  let salt := charCodeSum key
  pool.getD (seededIndex pool.length variant salt) (str "update")

/-- `getDefaultVerb` (lines 966-968). -/
def getDefaultVerb (type : Str) (variant : Nat) : Str :=
  pickVerb type VerbDomain.code variant

/-- `getEmoji` (heuristic.ts lines 1067-1083); the source file stores the
emoji literals in a UTF-8/latin-1 mojibake, decoded here. -/
def getEmoji (type : Str) : Str :=
  if type = str "feat" then str "✨"
  else if type = str "fix" then str "🐛"
  else if type = str "docs" then str "📝"
  else if type = str "style" then str "💄"
  else if type = str "refactor" then str "♻️"
  else if type = str "test" then str "✅"
  else if type = str "chore" then str "🔧"
  else if type = str "perf" then str "⚡"
  else if type = str "build" then str "📦"
  else if type = str "ci" then str "👷"
  else if type = str "revert" then str "⏪"
  else str "🔨"

/-- `capitalizeFirst` (lines 1085-1088). -/
def capitalizeFirst : Str → Str
  | [] => []
  | c :: cs => upperChar c :: cs

/-- The verb table of `getAction` for modified files (lines 1015-1024). -/
def modActionOf (type : Str) : Str :=
  if type = str "feat" then str "add"
  else if type = str "fix" then str "fix"
  else if type = str "refactor" then str "refactor"
  else if type = str "docs" then str "update"
  else if type = str "test" then str "update"
  else if type = str "style" then str "style"
  else if type = str "chore" then str "update"
  else if type = str "perf" then str "optimize"
  else str "update"

/-- `getAction` (heuristic.ts lines 1010-1027); the unused `fileCount`
parameter is dropped. -/
def getAction (st : FStatus) (type : Str) : Str :=
  match st with
  | FStatus.A => if type = str "feat" then str "add" else str "create"
  | FStatus.D => str "remove"
  | FStatus.R => str "rename"
  | _ => modActionOf type

/-- Per-file churn weight `Math.max(1, additions + deletions)`. -/
def fileWeight (f : FileChange) : Nat := max 1 (f.additions + f.deletions)

/-- The categorizer's effective weight: churn doubled for added files
(heuristic.ts lines 1035-1039). -/
def effWeight (f : FileChange) : Nat :=
  if f.status = FStatus.A then 2 * fileWeight f else fileWeight f

/-- The category assigned to one file by `categorizeFiles`
(heuristic.ts lines 1041-1059): an ordered cascade of path tests. -/
def categoryOf (f : FileChange) : Str :=
  let path := slashNorm f.path
  if endsWithAny path [str ".tsx", str ".jsx"] then str "components"
  else if endsWithAny path [str ".ts", str ".js"] then
    (if containsSub path (str "/engines/") then str "engine"
     else if containsSub path (str "/cli") then str "cli"
     else str "code")
  else if endsWithAny path [str ".css", str ".scss", str ".less"] then str "styles"
  else if containsSub path (str ".test.") || containsSub path (str ".spec.") ||
          containsSub path (str "__tests__") then str "tests"
  else if endsWithAny path [str ".md", str ".txt", str ".rst", str ".adoc"] then str "docs"
  else if containsSub path (str "api") || containsSub path (str "route") ||
          containsSub path (str "endpoint") then str "API"
  else if containsSub path (str "config") || containsSub path (str "settings") then str "config"
  else if endsWithAny path [str ".py"] then str "modules"
  else str "files"

/-- Insertion-ordered accumulation into the category map (JavaScript `Map.set`
keeps the first-insertion position of a key). -/
def upsert (m : List (Str × Nat)) (k : Str) (w : Nat) : List (Str × Nat) :=
  match m with
  | [] => [(k, w)]
  | (k2, w2) :: rest => if k2 = k then (k2, w2 + w) :: rest else (k2, w2) :: upsert rest k w

/-- `categorizeFiles` (heuristic.ts lines 1029-1065): every file contributes
its effective weight to exactly one category. -/
def categorizeFiles (files : List FileChange) : List (Str × Nat) :=
  files.foldl (fun m f => upsert m (categoryOf f) (effWeight f)) []

/-- Stable insertion step for descending-weight sorting: a new entry goes
after all entries of greater-or-equal weight. -/
def insDesc (x : Str × Nat) : List (Str × Nat) → List (Str × Nat)
  | [] => [x]
  | y :: ys => if x.2 ≤ y.2 then y :: insDesc x ys else x :: y :: ys

/-- Stable sort by descending weight, modelling the JavaScript stable
`Array.prototype.sort` with comparator `(a, b) => b[1] - a[1]`. -/
def sortDesc (l : List (Str × Nat)) : List (Str × Nat) :=
  l.foldl (fun acc x => insDesc x acc) []

/-- `joinSep sep l` models `l.join(sep)`. -/
def joinSep (sep : Str) : List Str → Str
  | [] => []
  | [x] => x
  | x :: xs => x ++ sep ++ joinSep sep xs

/-- A placeholder `FileChange` for provably unreachable list indexing. -/
def dfltFile : FileChange := ⟨[], FStatus.M, 0, 0, []⟩

/-- `detectEngineNoun` (heuristic.ts lines 877-896). -/
def detectEngineNoun (files : List FileChange) : Str :=
  let engineFiles := files.filter (fun f => containsSub f.path (str "/engines/"))
  if engineFiles.isEmpty then []
  else
    let added := engineFiles.filter (fun f => f.status = FStatus.A)
    let target := if added.isEmpty then engineFiles else added
    let names0 := (engineFilesNames target).filter
      (fun n => !((str "shared").isPrefixOf (toLowerStr n) || (str "heuristic").isSuffixOf (toLowerStr n)))
    let names := names0.map capitalizeFirst
    match names with
    | [] => str "engines"
    | [x] => x ++ str " engine"
    | [x, y] => x ++ str " and " ++ y ++ str " engines"
    | x :: y :: _ => x ++ str ", " ++ y ++ str " and other engines"
where
  /-- last path segment of each file with the dot-extension removed
  (`p.split('/').pop() || ''` then `replace(/\.[^.]+$/, '')`). -/
  engineFilesNames (l : List FileChange) : List Str :=
    l.map (fun f => dropExt ((splitOnChar '/' (slashNorm f.path)).getLastD []))

/-- `prettifyCategory` (heuristic.ts lines 719-729). -/
def prettifyCategory (category : Str) (files : List FileChange) : Str :=
  if category = str "engine" then
    (let en := detectEngineNoun files; if en.isEmpty then str "engines" else en)
  else if category = str "cli" then str "CLI"
  else if category = str "api" || category = str "API" then str "API"
  else if category = str "ui" then str "UI"
  else if category = str "config" then str "configuration"
  else category

/-- `buildCategoryNoun` (heuristic.ts lines 898-911).  The final catch-all
mirrors the source template, which renders `", and undefined"` when no
pretty part survives. -/
def buildCategoryNoun (files : List FileChange) : Str :=
  if files.isEmpty then []
  else
    let cats := categorizeFiles files
    if cats.isEmpty then []
    else
      let entries := sortDesc cats
      let top := (entries.take (min 3 entries.length)).map Prod.fst
      let parts := (top.map (fun k => prettifyCategory k files)).filter (fun p => !p.isEmpty)
      match parts with
      | [p] => p
      | [p, q] => p ++ str " and " ++ q
      | ps => joinSep (str ", ") ps.dropLast ++ str ", and " ++ ps.getLastD (str "undefined")

/-- `buildSubject` (heuristic.ts lines 970-1008). -/
def buildSubject (files : List FileChange) (type : Str) (includeVerb : Bool) : Str :=
  match files with
  | [f] =>
    let normPath := slashNorm f.path
    let fileName0 := dropExt ((splitOnChar '/' normPath).getLastD [])
    let fileName := if fileName0.isEmpty then str "file" else fileName0
    let action := getAction f.status type
    if !f.summary.isEmpty then
      let ids := trimStr ((splitOnChar ',' f.summary).headD [])
      if includeVerb then action ++ str " " ++ ids ++ str " in " ++ fileName
      else ids ++ str " in " ++ fileName
    else if includeVerb then action ++ str " " ++ fileName else fileName
  | _ =>
    let action := getAction (((files.head?).map (fun f => f.status)).getD FStatus.M) type
    let categories := categorizeFiles files
    if categories.length = 1 then
      let category := (categories.headD (str "files", 0)).1
      let engineNoun := if category = str "engine" then detectEngineNoun files else []
      let noun := if engineNoun.isEmpty then category else engineNoun
      if includeVerb then
        action ++ str " " ++ noun ++ str " across " ++ natToStr files.length ++ str " files"
      else noun ++ str " across " ++ natToStr files.length ++ str " files"
    else
      let topCategories := ((sortDesc categories).take 2).map Prod.fst
      match topCategories with
      | [c1, c2] =>
        let engineNoun :=
          if c1 = str "engine" || c2 = str "engine" then detectEngineNoun files else []
        let first := if c1 = str "engine" then (if engineNoun.isEmpty then str "engines" else engineNoun) else c1
        let second := if c2 = str "engine" then (if engineNoun.isEmpty then str "engines" else engineNoun) else c2
        if includeVerb then action ++ str " " ++ first ++ str " and " ++ second
        else first ++ str " and " ++ second
      | _ =>
        if includeVerb then action ++ str " " ++ natToStr files.length ++ str " files"
        else natToStr files.length ++ str " files"

end Heuristic

namespace Heuristic

/-- Path segments that the scope detector never uses as a scope token. -/
def genericSegs : List Str :=
  [str "src", str "lib", str "dist", str "build", str ".", str "node_modules",
   str "packages", str "apps", str "public", str "assets", str "scripts"]

/-- The final guard on fallback scope tokens:
`scope && scope.length <= 15 ? scope : ''`. -/
def capToken (o : Option Str) : Str :=
  match o with
  | some s => if !s.isEmpty && s.length ≤ 15 then s else []
  | none => []

/-- `/\.(md|rst|adoc)\b/`: a dot-extension occurrence followed by a word
boundary (paths are already lower-cased by the caller). -/
def dotExtBd (p : Str) : Bool :=
  (List.range (p.length + 1)).any (fun i =>
    [str ".md", str ".rst", str ".adoc"].any (fun ext =>
      ext.isPrefixOf (p.drop i) && !isWordChar ((p.drop (i + ext.length)).headD '?')))

/-- The keyword pattern of one scope domain (heuristic.ts lines 786-797),
applied to a normalized lower-cased path. -/
def domainTest (key p : Str) : Bool :=
  if key = str "engine" then
    hasWordToken [str "engine", str "engines", str "heuristic", str "ollama",
      str "openai", str "gemini", str "anthropic", str "claude"] p
  else if key = str "cli" then hasWordToken [str "cli", str "command", str "bin"] p
  else if key = str "api" then hasWordToken [str "api", str "endpoint", str "route", str "controller"] p
  else if key = str "auth" then hasWordToken [str "auth", str "login", str "session", str "token", str "oauth", str "jwt"] p
  else if key = str "db" then hasWordToken [str "database", str "db", str "model", str "schema", str "migration"] p
  else if key = str "config" then hasWordToken [str "config", str "setting", str "env"] p
  else if key = str "build" then hasWordToken [str "build", str "webpack", str "vite", str "rollup", str "babel"] p
  else if key = str "test" then hasWordToken [str "test", str "spec", str "__tests__"] p
  else if key = str "ui" then hasWordToken [str "ui", str "component", str "view", str "page", str "layout"] p
  else hasWordToken [str "readme", str "docs", str "changelog", str "contributing"] p || dotExtBd p

/-- The fixed domain order (object-key insertion order, also the tie-break
order of the sort at lines 813-816). -/
def domainKeys : List Str :=
  [str "engine", str "cli", str "api", str "auth", str "db", str "config",
   str "build", str "test", str "ui", str "docs"]

/-- Case-insensitive doc-extension suffix on an already-normalized path
(the `codeMask` test, line 809). -/
def docSuffix (p : Str) : Bool :=
  endsWithAny (toLowerStr p) [str ".md", str ".txt", str ".rst", str ".adoc"]

/-- The first-match-wins common-segment loop of the multi-file scope
fallback (heuristic.ts lines 835-842). -/
def commonLoop (firstParts : List Str) (allParts : List (List Str)) : Nat → Nat → List Str
  | 0, _ => []
  | fuel + 1, i =>
    let part := firstParts.getD i []
    if allParts.all (fun p => p.getD i [] = part) then
      part :: commonLoop firstParts allParts fuel (i + 1)
    else []

/-- The maximum-count key selection of `detectScope` (lines 814-816): keys
with positive count, maximal count first, ties broken by key order. -/
def pickBest (cnt : Str → Nat) (keys : List Str) : Option Str :=
  keys.foldl
    (fun acc k =>
      if cnt k > 0 then
        match acc with
        | none => some k
        | some b => if cnt k > cnt b then some k else acc
      else acc)
    none

/-- The significance guard on the winning domain (lines 818-821):
`counts[best] / Math.max(1, totalCodeWeight) >= 0.5 || counts[best] >= 2`. -/
def bestGuard (ok : Str → Bool) : Option Str → Option Str
  | some b => if ok b then some b else none
  | none => none

/-- Return the guarded winner, else the fallback token (lines 818-846). -/
def scopeDispatch (bestHit : Option Str) (fallback : Str) : Str :=
  match bestHit with
  | some b => b
  | none => fallback

/-- The single-file fallback (lines 824-829): last meaningful parent
segment. -/
def singleFallback (paths : List Str) : Str :=
  capToken (((splitOnChar '/' (paths.headD [])).dropLast.filter
    (fun p => !genericSegs.contains p)).getLast?)

/-- The multi-file fallback (lines 831-846): last meaningful segment of the
longest common directory lead. -/
def multiFallback (paths : List Str) : Str :=
  let allParts := paths.map (fun p => (splitOnChar '/' p).dropLast)
  let lens := allParts.map List.length
  let minLen := match lens with | [] => 0 | x :: xs => xs.foldl min x
  capToken (((commonLoop (allParts.headD []) allParts minLen 0).filter
    (fun p => !genericSegs.contains p)).getLast?)

/-- `detectScope` (heuristic.ts lines 779-847). -/
def detectScope (files : List FileChange) : Str :=
  if files.isEmpty then []
  else
    let paths := files.map (fun f => toLowerStr (slashNorm f.path))
    let weights := files.map fileWeight
    let pw := paths.zip weights
    let countOf : Str → Nat := fun k =>
      pw.foldl (fun acc x => if domainTest k x.1 then acc + x.2 else acc) 0
    let anyCode := paths.any (fun p => !docSuffix p)
    let cnt : Str → Nat := fun k => if k = str "docs" ∧ anyCode then 0 else countOf k
    let best := pickBest cnt domainKeys
    let totalCode0 := pw.foldl (fun acc x => if !docSuffix x.1 then acc + x.2 else acc) 0
    let totalCode : Nat :=
      if totalCode0 = 0 then weights.foldl (fun a b => a + b) 0 else totalCode0
    scopeDispatch
      (bestGuard (fun b => 2 * cnt b ≥ max 1 totalCode || cnt b ≥ 2) best)
      (if files.length = 1 then singleFallback paths else multiFallback paths)

/-- `/\.(tsx?|jsx?|py|go|rs|java|cs|rb|php)$/` on a raw path. -/
def codeExt (p : Str) : Bool :=
  endsWithAny p [str ".ts", str ".tsx", str ".js", str ".jsx", str ".py",
    str ".go", str ".rs", str ".java", str ".cs", str ".rb", str ".php"]

/-- `addedCode` of `detectChangeType` (line 740). -/
def addedCodeB (files : List FileChange) : Bool :=
  files.any (fun f => f.status = FStatus.A && codeExt f.path)

/-- `/\b(fix|bug|issue|patch|resolve[sd]?)\b/i` (line 749). -/
def fixStrongB (diff : Str) : Bool :=
  hasWordToken [str "fix", str "bug", str "issue", str "patch",
    str "resolve", str "resolves", str "resolved"] diff

/-- Token occurrence at `i` with a word boundary on the left. -/
def bdLeftAt (s tok : Str) (i : Nat) : Bool :=
  tok.isPrefixOf (s.drop i) && (i = 0 || !isWordChar (s.getD (i - 1) '?'))

/-- Token occurrence at `j` with a word boundary on the right. -/
def bdRightAt (s tok : Str) (j : Nat) : Bool :=
  tok.isPrefixOf (s.drop j) && !isWordChar ((s.drop (j + tok.length)).headD '?')

/-- `/\b(null|undefined).*check\b/i` on one (lower-cased) line: a
boundary-led `null`/`undefined` followed on the same line by a
boundary-ended `check`. -/
def nullCheckLine (l : Str) : Bool :=
  (List.range (l.length + 1)).any (fun i =>
    [str "null", str "undefined"].any (fun t =>
      bdLeftAt l t i &&
      (List.range (l.length + 1)).any (fun j => i + t.length ≤ j && bdRightAt l (str "check") j)))

/-- `/\b(null|undefined).*check\b/i` over the whole diff (`.` does not
cross newlines). -/
def nullCheckB (diff : Str) : Bool :=
  (splitOnChar '\n' (toLowerStr diff)).any nullCheckLine

/-- `/test.*fail/i` on one lower-cased line. -/
def testFailLine (l : Str) : Bool :=
  (List.range (l.length + 1)).any (fun i =>
    (str "test").isPrefixOf (l.drop i) &&
    (List.range (l.length + 1)).any (fun j => i + 4 ≤ j && (str "fail").isPrefixOf (l.drop j)))

/-- `/test.*fail/i` over the whole diff. -/
def testFailB (diff : Str) : Bool :=
  (splitOnChar '\n' (toLowerStr diff)).any testFailLine

/-- The count of matching weak fix signals (lines 750-755). -/
def fixWeakCount (diff : Str) : Nat :=
  (if hasWordToken [str "throw", str "catch", str "try", str "error", str "exception"] diff then 1 else 0) +
  (if nullCheckB diff then 1 else 0) +
  (if testFailB diff then 1 else 0)

/-- `isTestChange` (lines 757-758). -/
def isTestChangeB (files : List FileChange) (diff : Str) : Bool :=
  files.any (fun f => containsSub f.path (str ".test.") || containsSub f.path (str "_test.") ||
    containsSub f.path (str "spec.") || containsSub f.path (str "__tests__")) ||
  hasWordToken [str "test", str "spec", str "jest", str "mocha", str "pytest"] diff

/-- `isRefactor` (lines 760-761). -/
def isRefactorB (files : List FileChange) (diff : Str) (addedCode : Bool) : Bool :=
  hasWordToken [str "refactor", str "restructure", str "reorganize", str "cleanup", str "simplify"] diff ||
  (files.all (fun f => f.status = FStatus.M && f.additions > 0 && f.deletions > 0) && !addedCode)

/-- `isStyle` (lines 763-764). -/
def isStyleB (files : List FileChange) (diff : Str) : Bool :=
  files.any (fun f => endsWithAny f.path [str ".css", str ".scss", str ".less", str ".styl"]) ||
  hasWordToken [str "style", str "format", str "prettier", str "eslint", str "lint"] diff

/-- `isChore` (lines 766-767). -/
def isChoreB (files : List FileChange) (diff : Str) : Bool :=
  files.any (fun f => containsSub f.path (str "package.json") || containsSub f.path (str "package-lock") ||
    containsSub f.path (str "yarn.lock") || containsSub f.path (str "Cargo.toml") ||
    containsSub f.path (str "go.mod")) ||
  hasWordToken [str "deps", str "dependency", str "dependencies", str "version",
    str "bump", str "upgrade", str "lockfile"] diff

/-- The primary-focus labels of this revision (heuristic.ts line 395). -/
inductive HFocus where
  | newEngine | multiEngine | engineRefactor | scopeSpecific | multiCategory | singleFile | generic
deriving DecidableEq, Repr

/-- The primary-focus record (focus label, detail phrase, weight). -/
structure PrimaryFocus where
  focus : HFocus
  detail : Str
  weight : Nat
deriving DecidableEq, Repr

/-- `detectChangeType` (heuristic.ts lines 731-777).  The dead local
`hasNewKeywords` of the source is not reproduced: it does not influence the
result. -/
def detectChangeType (files : List FileChange) (diff : Str) (focus : HFocus) : Str :=
  if files.all (fun f => isDocFile f.path) then str "docs"
  else if focus = HFocus.engineRefactor then str "refactor"
  else if focus = HFocus.newEngine || focus = HFocus.multiEngine then str "feat"
  else if addedCodeB files then str "feat"
  else if fixStrongB diff && (1 ≤ fixWeakCount diff || isTestChangeB files diff) then str "fix"
  else if isTestChangeB files diff then str "test"
  else if isRefactorB files diff (addedCodeB files) then str "refactor"
  else if isStyleB files diff then str "style"
  else if isChoreB files diff then str "chore"
  else if (files.head?).map (fun f => f.status) = some FStatus.A then str "feat"
  else str "chore"

end Heuristic

namespace Heuristic

/-- `/\/engines\/[^/]+\.(ts|js)$/` on a raw path: the penultimate segment is
`engines` and the last segment is a non-empty stem plus `.ts`/`.js`. -/
def enginePathTest (p : Str) : Bool :=
  match (splitOnChar '/' p).reverse with
  | last :: pen :: _ =>
    pen = str "engines" && endsWithAny last [str ".ts", str ".js"] && last.length ≥ 4
  | _ => false

/-- `/\/engines\/shared\.(ts|js)$/`. -/
def sharedPathTest (p : Str) : Bool :=
  match (splitOnChar '/' p).reverse with
  | last :: pen :: _ => pen = str "engines" && (last = str "shared.ts" || last = str "shared.js")
  | _ => false

/-- `/\/engines\/heuristic\.(ts|js)$/`. -/
def heuristicPathTest (p : Str) : Bool :=
  match (splitOnChar '/' p).reverse with
  | last :: pen :: _ => pen = str "engines" && (last = str "heuristic.ts" || last = str "heuristic.js")
  | _ => false

/-- `/heuristic\./.test(path)` (case-sensitive). -/
def containsHeuristicDot (p : Str) : Bool := containsSub p (str "heuristic.")

/-- `/heuristic\.|shared\./i.test(path)`. -/
def containsHeurOrSharedCI (p : Str) : Bool :=
  containsSubCI p (str "heuristic.") || containsSubCI p (str "shared.")

/-- `files.filter(f => f.status === 'A' && engine-file && !heuristic)` (line 402). -/
def newEnginesOf (files : List FileChange) : List FileChange :=
  files.filter (fun f => f.status = FStatus.A && enginePathTest f.path && !containsHeuristicDot f.path)

/-- `files.filter(f => f.status === 'A' && shared-file)` (line 405). -/
def newSharedOf (files : List FileChange) : List FileChange :=
  files.filter (fun f => f.status = FStatus.A && sharedPathTest f.path)

/-- `files.filter(f => f.status === 'M' && engine-file && !heuristic/shared)` (line 408). -/
def modifiedEnginesOf (files : List FileChange) : List FileChange :=
  files.filter (fun f => f.status = FStatus.M && enginePathTest f.path && !containsHeurOrSharedCI f.path)

/-- `path.split('/').pop()?.replace(/\.[^.]+$/, '') || ''`, capitalized,
empty names dropped first (lines 417-420 and peers). -/
def engineNamesOf (l : List FileChange) : List Str :=
  (((l.map (fun f => dropExt ((splitOnChar '/' f.path).getLastD []))).filter
    (fun n => !n.isEmpty)).map capitalizeFirst)

/-- `detectPrimaryFocus` (heuristic.ts lines 394-543). -/
def detectPrimaryFocus (files : List FileChange) (_diff : Str) : PrimaryFocus :=
  if files.isEmpty then ⟨HFocus.generic, [], 1⟩
  else
    let newEngines := newEnginesOf files
    let newShared := newSharedOf files
    let modifiedEngines := modifiedEnginesOf files
    let modifiedHeuristic := files.any (fun f => f.status = FStatus.M && heuristicPathTest f.path)
    if (!newEngines.isEmpty || !newShared.isEmpty) && modifiedEngines.length ≥ 2 then
      let engineNames := engineNamesOf newEngines
      let parts :=
        (if !engineNames.isEmpty then [joinSep (str " and ") engineNames ++ str " integration"] else []) ++
        (if !newShared.isEmpty then [str "shared utilities"] else [])
      let detail :=
        if parts.length > 1 then str "engine architecture with " ++ joinSep (str " and ") parts
        else
          str "engine architecture with " ++
            (let p0 := parts.headD []; if p0.isEmpty then str "shared utilities" else p0)
      ⟨HFocus.engineRefactor, detail, 10⟩
    else if !newEngines.isEmpty && modifiedEngines.length ≥ 1 then
      let engineNames := engineNamesOf newEngines
      if engineNames.length = 1 then
        ⟨HFocus.newEngine, engineNames.headD [] ++ str " engine support", 8⟩
      else
        ⟨HFocus.newEngine, joinSep (str " and ") (engineNames.take 2) ++ str " engine support", 8⟩
    else if newEngines.length = 1 && modifiedEngines.length = 0 then
      let name := dropExt ((splitOnChar '/' ((newEngines.headD dfltFile).path)).getLastD [])
      ⟨HFocus.newEngine, capitalizeFirst name ++ str " engine", 7⟩
    else if newEngines.length > 1 then
      let names := engineNamesOf newEngines
      ⟨HFocus.newEngine, joinSep (str " and ") (names.take 2) ++ str " engines", 7⟩
    else if modifiedEngines.length ≥ 3 then ⟨HFocus.multiEngine, str "multiple engines", 6⟩
    else if !newShared.isEmpty && (modifiedEngines.length ≥ 2 || modifiedHeuristic) then
      ⟨HFocus.engineRefactor, str "engine architecture", 9⟩
    else if files.length = 1 then
      let fileName := dropExt ((splitOnChar '/' ((files.headD dfltFile).path)).getLastD [])
      ⟨HFocus.singleFile, fileName, 3⟩
    else
      let scope := detectScope files
      let scopeHit :=
        if !scope.isEmpty then
          let scopeFiles := files.filter (fun f =>
            let normalized := toLowerStr (slashNorm f.path)
            containsSub normalized (toLowerStr scope) ||
              containsSub normalized (str "/" ++ scope ++ str "/"))
          -- `scopeFiles.length >= files.length * 0.6`
          5 * scopeFiles.length ≥ 3 * files.length
        else false
      if scopeHit then ⟨HFocus.scopeSpecific, scope, 5⟩
      else
        let cats := categorizeFiles files
        if cats.length ≥ 2 then
          ⟨HFocus.multiCategory, joinSep (str ",") ((cats.map Prod.fst).take 3), 4⟩
        else ⟨HFocus.generic, [], 2⟩

/-- `/^[+].*#+\s+/.test(l)`: a `+` line containing a `#` run followed by
whitespace. -/
def headingLineTest (l : Str) : Bool :=
  l.headD '?' = '+' &&
  (List.range l.length).any (fun i => l.getD i '?' = '#' && isWs (l.getD (i + 1) '?'))

/-- `l.replace(/^\+\s*/, '')`. -/
def stripPlusWs (l : Str) : Str :=
  match l with
  | '+' :: rest => rest.dropWhile isWs
  | _ => l

/-- `h.replace(/^#+\s+/, '')`. -/
def stripHashWs (l : Str) : Str :=
  let hashes := l.takeWhile (fun c => c = '#')
  if hashes.length > 0 && isWs ((l.drop hashes.length).headD '?') then
    (l.drop hashes.length).dropWhile isWs
  else l

/-- `/a\s+b/` substring with one-or-more whitespace between the literals. -/
def flexWsSub (a b : Str) (s : Str) : Bool :=
  (List.range (s.length + 1)).any (fun i =>
    a.isPrefixOf (s.drop i) &&
    (let rest := s.drop (i + a.length)
     isWs (rest.headD '?') && b.isPrefixOf (rest.dropWhile isWs)))

/-- `extractDocsTopic` (heuristic.ts lines 913-947). -/
def extractDocsTopic (diff : Str) : Str :=
  if diff.isEmpty then []
  else
    let lines := splitOnChar '\n' diff
    let text := toLowerStr diff
    let fromHeading : Str :=
      match lines.find? headingLineTest with
      | some hl =>
        let h := toLowerStr (stripHashWs (stripPlusWs hl))
        if containsSub h (str "install") || containsSub h (str "setup") ||
            flexWsSub (str "getting") (str "started") h then str "installation"
        else if containsSub h (str "usage") || containsSub h (str "run") ||
            containsSub h (str "command") then str "usage"
        else if containsSub h (str "example") || containsSub h (str "demo") ||
            containsSub h (str "sample") then str "examples"
        else if containsSub h (str "config") || containsSub h (str "configuration") ||
            containsSub h (str "env") then str "configuration"
        else if containsSub h (str "api") || containsSub h (str "reference") ||
            containsSub h (str "endpoint") then str "API reference"
        else if containsSub h (str "troubleshooting") || containsSub h (str "faq") then str "troubleshooting"
        else if containsSub h (str "contribut") then str "contributing"
        else if containsSub h (str "changelog") || containsSub h (str "release") then str "changelog"
        else []
      | none => []
    if !fromHeading.isEmpty then fromHeading
    else if hasRunLead (str "install") text || hasRunTail (str "setup") text then str "installation"
    else if hasRunLead (str "usage") text || hasRunTail (str "command") text then str "usage"
    else if hasRunLead (str "example") text || hasRunTail (str "sample") text then str "examples"
    else if hasRunLead (str "config") text || containsSub text (str "configuration") ||
        hasRunTail (str "env") text then str "configuration"
    else if hasWordToken [str "api"] text then str "API reference"
    else if hasRunLead (str "changelog") text || hasRunTail (str "release") text then str "changelog"
    else if hasRunLead (str "contribut") text then str "contributing"
    else
      let isLink : Str → Bool := fun l =>
        containsSubCI l (str "http://") || containsSubCI l (str "https://")
      let addedLinks := (lines.filter (fun l => l.headD '?' = '+' && isLink l)).length
      let removedLinks := (lines.filter (fun l => l.headD '?' = '-' && isLink l)).length
      if addedLinks + removedLinks > 0 then str "links"
      else
        let smallTextOnly :=
          lines.all (fun l => !(str "diff --git ").isPrefixOf l) &&
          (lines.filter (fun l => l.headD '?' = '+' || l.headD '?' = '-')).length < 10
        if smallTextOnly then str "typos" else []

/-- Lazy split of the tail of a `diff --git` header into the `a/` and `b/`
paths: the first blank followed by `b/` with a non-empty path on each side. -/
def findAB (acc : Str) : Str → Option (Str × Str)
  | [] => none
  | c :: tail =>
    if c = ' ' && (str "b/").isPrefixOf tail && !acc.isEmpty && !(tail.drop 2).isEmpty then
      some (acc.reverse, tail.drop 2)
    else findAB (c :: acc) tail

/-- `/^diff --git a\/(.+?) b\/(.+)$/.exec(line)`. -/
def parseGitHeader (l : Str) : Option (Str × Str) :=
  if (str "diff --git a/").isPrefixOf l then findAB [] (l.drop 13) else none

/-- `buildDiffForFiles` (heuristic.ts lines 1157-1176). -/
def buildDiffForFiles (diff : Str) (files : List FileChange) : Str :=
  if diff.isEmpty || files.isEmpty then []
  else
    let wanted := ((files.map (fun f => f.path)).filter (fun p => !p.isEmpty)).map slashNorm
    let lines := splitOnChar '\n' diff
    let out := (lines.foldl
      (fun (acc : List Str × Bool) line =>
        let inc :=
          match parseGitHeader line with
          | some ab => wanted.contains (slashNorm ab.1) || wanted.contains (slashNorm ab.2)
          | none => acc.2
        (if inc then acc.1 ++ [line] else acc.1, inc))
      ([], false)).1
    trimStr (joinSep (str "\n") out)

/-- `getVerbForFocus` (heuristic.ts lines 712-717). -/
def getVerbForFocus (focus : HFocus) (type : Str) (variant : Nat) : Str :=
  if focus = HFocus.engineRefactor then str "refactor"
  else if focus = HFocus.newEngine then (if type = str "feat" then str "add" else str "implement")
  else if focus = HFocus.multiEngine then str "update"
  else getDefaultVerb type variant

/-- One attempt of `/\b([A-Z][a-z]+)\s+(engine|integration)/` at position `i`,
returning the capture group. -/
def engineWordAt (s : Str) (i : Nat) : Option Str :=
  if i = 0 || !isWordChar (s.getD (i - 1) '?') then
    match s.drop i with
    | c :: rest =>
      if 'A' ≤ c && c ≤ 'Z' then
        let low := rest.takeWhile (fun d => 'a' ≤ d && d ≤ 'z')
        if low.length ≥ 1 then
          let after := rest.drop low.length
          if isWs (after.headD '?') &&
              ((str "engine").isPrefixOf (after.dropWhile isWs) ||
               (str "integration").isPrefixOf (after.dropWhile isWs)) then
            some (c :: low)
          else none
        else none
      else none
    | [] => none
  else none

/-- Leftmost match of `/\b([A-Z][a-z]+)\s+(engine|integration)/` (line 617). -/
def engineMatchOf (s : Str) : Option Str :=
  ((List.range s.length).filterMap (fun i => engineWordAt s i)).head?

/-- The primary description (heuristic.ts lines 556-602): the switch on the
primary focus. -/
def descFirst (files : List FileChange) (type : Str) (pf : PrimaryFocus) : Desc :=
  let primaryVerb := getVerbForFocus pf.focus type 0
  match pf.focus with
  | HFocus.newEngine => ⟨primaryVerb, pf.detail⟩
  | HFocus.multiEngine => ⟨primaryVerb, pf.detail⟩
  | HFocus.engineRefactor => ⟨str "refactor", pf.detail⟩
  | HFocus.singleFile => ⟨primaryVerb, pf.detail⟩
  | HFocus.scopeSpecific =>
    let catNoun := buildCategoryNoun files
    ⟨primaryVerb, if catNoun.isEmpty then pf.detail ++ str " implementation" else catNoun⟩
  | HFocus.multiCategory =>
    let catNoun := buildCategoryNoun files
    ⟨primaryVerb, if catNoun.isEmpty then str "multiple components" else catNoun⟩
  | HFocus.generic => ⟨primaryVerb, buildSubject files type false⟩

/-- Alternative 2 (lines 604-631): supporting-changes perspective for
architectural refactors. -/
def descSupporting (files : List FileChange) (type : Str) (pf : PrimaryFocus) : List Desc :=
  if pf.focus = HFocus.engineRefactor || pf.focus = HFocus.newEngine then
    let hasConfigChanges := files.any (fun f =>
      containsSub f.path (str "config.ts") || containsSub f.path (str "config.js") ||
      containsSub f.path (str "config.json"))
    let hasCLIChanges := files.any (fun f =>
      containsSub f.path (str "cli.ts") || containsSub f.path (str "cli.js"))
    let hasGeneratorChanges := files.any (fun f =>
      containsSub f.path (str "generator.ts") || containsSub f.path (str "generator.js"))
    let supportingParts :=
      (if hasConfigChanges then [str "configuration"] else []) ++
      (if hasCLIChanges then [str "CLI"] else []) ++
      (if hasGeneratorChanges then [str "generator"] else [])
    if supportingParts.length > 0 then
      let engineName := (engineMatchOf pf.detail).getD (str "engine")
      let supportingDesc :=
        match supportingParts with
        | [x] => x
        | [x, y] => x ++ str " and " ++ y
        | ps => joinSep (str ", ") ps.dropLast ++ str ", and " ++ ps.getLastD []
      [⟨getVerbForFocus pf.focus type 0,
        engineName ++ str " with " ++ supportingDesc ++ str " updates"⟩]
    else []
  else []

/-- Alternative 3 (lines 633-654): which engines were modified. -/
def descEngines (files : List FileChange) (type : Str) (pf : PrimaryFocus)
    (variant lenSoFar : Nat) : List Desc :=
  if lenSoFar < 3 && (pf.focus = HFocus.engineRefactor || pf.focus = HFocus.multiEngine) then
    let modifiedEngineNames :=
      (((modifiedEnginesOf files).map (fun f =>
          capitalizeFirst (dropExt ((splitOnChar '/' f.path).getLastD [])))).filter
        (fun n => !n.isEmpty)).take 2
    match modifiedEngineNames with
    | [] => []
    | [x] => [⟨getDefaultVerb type variant, x ++ str " engine"⟩]
    | xs => [⟨getDefaultVerb type variant, joinSep (str " and ") xs ++ str " engines"⟩]
  else []

/-- Alternative 4 (lines 656-674): top-two-category perspective. -/
def descCategories (files : List FileChange) (type : Str) (pf : PrimaryFocus)
    (categories : List (Str × Nat)) (variant lenSoFar : Nat) : List Desc :=
  if categories.length ≥ 2 && pf.focus ≠ HFocus.multiCategory && lenSoFar < 4 then
    let topCategories :=
      (((sortDesc categories).take 2).map (fun kv => prettifyCategory kv.1 files)).filter
        (fun cat => toLowerStr cat ≠ str "code" && toLowerStr cat ≠ str "files")
    if topCategories.length ≥ 2 then
      [⟨getDefaultVerb type variant, joinSep (str " and ") topCategories⟩]
    else []
  else []

/-- Alternative 5 (lines 676-689): scope-plus-top-category perspective. -/
def descScope (files : List FileChange) (type : Str) (pf : PrimaryFocus)
    (scope : Str) (categories : List (Str × Nat)) (variant lenSoFar : Nat) : List Desc :=
  if !scope.isEmpty && pf.focus ≠ HFocus.scopeSpecific && lenSoFar < 5 then
    match (sortDesc categories).head? with
    | some topCat =>
      let catName := prettifyCategory topCat.1 files
      if toLowerStr catName ≠ toLowerStr scope then
        [⟨getDefaultVerb type variant, scope ++ str " " ++ catName⟩]
      else []
    | none => []
  else []

/-- The guaranteed final block (lines 691-707): the `buildSubject` fallback,
skipped when it (near-)duplicates an existing noun. -/
def descFallback (files : List FileChange) (type : Str) (variant : Nat)
    (soFar : List Desc) : List Desc :=
  if soFar.length < 3 then
    let fallback := buildSubject files type false
    let isDup := soFar.any (fun d =>
      toLowerStr d.noun = toLowerStr fallback ||
      containsSub (toLowerStr d.noun) (toLowerStr fallback) ||
      containsSub (toLowerStr fallback) (toLowerStr d.noun))
    if isDup then [] else [⟨getDefaultVerb type variant, fallback⟩]
  else []

/-- `buildDescriptions` (heuristic.ts lines 545-710); the unused `topics`
parameter of the source is dropped.  The list is assembled exactly in push
order, with each block's length guard evaluated on the list built so far. -/
def buildDescriptions (files : List FileChange) (type : Str) (pf : PrimaryFocus)
    (scope : Str) (categories : List (Str × Nat)) (variant : Nat) : List Desc :=
  let l1 := [descFirst files type pf] ++ descSupporting files type pf
  let l2 := l1 ++ descEngines files type pf variant l1.length
  let l3 := l2 ++ descCategories files type pf categories variant l2.length
  let l4 := l3 ++ descScope files type pf scope categories variant l3.length
  l4 ++ descFallback files type variant l4

end Heuristic

namespace Heuristic

/-- The per-type alternative-phrase pools of `generateAlternative`
(heuristic.ts lines 1098-1145), with `${shortList || target}` resolved. -/
def altPool (type target shortList : Str) (fileCount : Nat) : List Str :=
  let slt := if shortList.isEmpty then target else shortList
  if type = str "feat" then
    [str "introduce " ++ target ++ str " changes",
     str "add improvements to " ++ target,
     str "implement updates in " ++ slt]
  else if type = str "fix" then
    [str "address issues in " ++ target,
     str "fix problems in " ++ slt,
     str "resolve edge cases in " ++ target]
  else if type = str "refactor" then
    [str "simplify " ++ target ++ str " structure",
     str "refactor " ++ slt,
     str "clean up " ++ target]
  else if type = str "docs" then
    [str "update documentation",
     str "clarify README",
     str "improve docs for " ++ target]
  else if type = str "test" then
    [str "add or update tests",
     str "improve test coverage",
     str "adjust tests for " ++ slt]
  else if type = str "style" then
    [str "apply formatting updates",
     str "style tweaks in " ++ slt,
     str "format " ++ target]
  else if type = str "chore" then
    [str "update configuration",
     str "maintenance updates",
     str "tune settings for " ++ target]
  else if type = str "perf" then
    [str "optimize " ++ target ++ str " performance",
     str "improve efficiency in " ++ slt,
     str "performance tweaks"]
  else
    [str "update " ++ target ++ str " with " ++ natToStr fileCount ++ str " change" ++
       (if fileCount > 1 then str "s" else []),
     str "improve " ++ target,
     str "modify " ++ slt]

/-- `generateAlternative` (heuristic.ts lines 1090-1150). -/
def generateAlternative (files : List FileChange) (type scope : Str) (variant idx : Nat) : Str :=
  let target := if scope.isEmpty then str "code" else scope
  let shortList := joinSep (str " and ")
    (((files.map (fun f => (splitOnChar '/' (slashNorm f.path)).getLastD [])).filter
      (fun s => !s.isEmpty)).take 2)
  let pool := altPool type target shortList files.length
  let salt := charCodeSum (type ++ target ++ natToStr idx)
  pool.getD (seededIndex pool.length variant salt) []

/-- The alternatives loop over the non-primary descriptions
(heuristic.ts lines 359-379): walk indices from 1, skip the selected
description, push each rendering not already present while fewer than three
candidates exist. -/
def altRender (isGitmoji : Bool) (emojiStr scope : Str) (d : Desc) : Str :=
  if isGitmoji then
    emojiStr ++ str " " ++ (if scope.isEmpty then [] else scope ++ str ": ") ++
      d.verb ++ str " " ++ d.noun
  else capitalizeFirst (d.verb ++ str " " ++ d.noun)

def altLoop (isGitmoji : Bool) (emojiStr scope : Str) (selIdx : Nat) :
    List Desc → Nat → List Str → List Str
  | [], _, cs => cs
  | d :: rest, idx, cs =>
    if cs.length < 3 then
      if idx = selIdx then altLoop isGitmoji emojiStr scope selIdx rest (idx + 1) cs
      else
        altLoop isGitmoji emojiStr scope selIdx rest (idx + 1)
          (if cs.contains (altRender isGitmoji emojiStr scope d) then cs
           else cs ++ [altRender isGitmoji emojiStr scope d])
    else cs

/-- The final fallback loop (heuristic.ts lines 382-389): push seeded
alternatives until three candidates exist or a duplicate is produced.  The
fuel `3` bounds the at most three possible pushes. -/
def fillLoop (files : List FileChange) (type scope : Str) (variant : Nat) :
    Nat → List Str → List Str
  | 0, cs => cs
  | fuel + 1, cs =>
    if cs.length < 3 then
      if cs.contains (generateAlternative files type scope variant cs.length) then cs
      else fillLoop files type scope variant fuel
        (cs ++ [generateAlternative files type scope variant cs.length])
    else cs

/-- A conventional-style candidate: the type string followed by the rest of
the template (lines 320-326). -/
def mkConv (type tail : Str) : Str := type ++ tail

/-- A plain-style candidate: `capitalizeFirst` of the whole
`verb noun` template (line 340). -/
def mkPlain (verb tail : Str) : Str := capitalizeFirst (verb ++ tail)

/-- The compound plain-style candidate: the capitalized code verb followed by
the rest of the template (lines 336-338). -/
def mkPlainMixed (verb tail : Str) : Str := capitalizeFirst verb ++ tail

/-- A gitmoji-style candidate: the type's emoji followed by the rest of the
template (lines 350-355). -/
def mkGitmoji (type tail : Str) : Str := getEmoji type ++ tail

/-- The style-dependent initial pushes (lines 315-357): conventional, then
plain, then gitmoji, each present for its own style and for `mix`. -/
def baseCands (msgStyle : MsgStyle) (cConv cPlain cGitmoji : Str) : List Str :=
  (if msgStyle = MsgStyle.conv || msgStyle = MsgStyle.mix then [cConv] else []) ++
  (if msgStyle = MsgStyle.plain || msgStyle = MsgStyle.mix then [cPlain] else []) ++
  (if msgStyle = MsgStyle.gitmoji || msgStyle = MsgStyle.mix then [cGitmoji] else [])

/-- The tail of `generateHeuristic` (lines 359-391): the initial pushes, the
description-alternatives loop, the seeded fallback loop, and the final
`slice(0, 3)`. -/
def finishCandidates (msgStyle : MsgStyle) (files : List FileChange) (type scope : Str)
    (variant selIdx : Nat) (descriptions : List Desc) (cConv cPlain cGitmoji : Str) :
    List Str :=
  (fillLoop files type scope variant 3
    (altLoop (msgStyle = MsgStyle.gitmoji) (getEmoji type) scope selIdx
      (descriptions.drop 1) 1 (baseCands msgStyle cConv cPlain cGitmoji))).take 3

/-- The body of `generateHeuristic` (heuristic.ts lines 248-392) as a pure
function of the fields it reads: the file list, the diff text, the style and
the `regen` counter. -/
def generateHeuristicCore (files : List FileChange) (diff : Str)
    (msgStyle : MsgStyle) (variant : Nat) : List Str :=
  let docsFiles := files.filter (fun f => isDocFile f.path)
  let codeFiles := files.filter (fun f => !isDocFile f.path)
  let codeDiff := buildDiffForFiles diff codeFiles
  let docsDiff := buildDiffForFiles diff docsFiles
  let baseFiles := if codeFiles.length ≠ 0 then codeFiles else files
  let baseDiff := if codeFiles.length ≠ 0 then codeDiff else diff
  let pf := detectPrimaryFocus baseFiles baseDiff
  let type := detectChangeType baseFiles baseDiff pf.focus
  let scope := detectScope files
  let categories := categorizeFiles baseFiles
  let docTopic := extractDocsTopic docsDiff
  let docWeight := docsFiles.foldl (fun s f => s + fileWeight f) 0
  let codeWeight := codeFiles.foldl (fun s f => s + fileWeight f) 0
  let isArch := pf.focus = HFocus.engineRefactor || pf.focus = HFocus.newEngine ||
    pf.focus = HFocus.multiEngine
  -- `docWeight >= Math.ceil((codeWeight + docWeight) * (isArch ? 0.6 : 0.4))`
  let ceilThr :=
    if isArch then (3 * (codeWeight + docWeight) + 4) / 5
    else (2 * (codeWeight + docWeight) + 4) / 5
  let hasReadme := docsFiles.any (fun f => endsWithAny (toLowerStr f.path) [str "readme.md"])
  let docsSig := hasReadme && docWeight ≥ ceilThr
  let descriptions := buildDescriptions baseFiles type pf scope categories variant
  let selIdx := if variant = 0 then 0 else min variant (descriptions.length - 1)
  let selectedDesc := descriptions.getD selIdx ⟨str "update", str "files"⟩
  let isMixed := docsFiles.length > 0 && codeFiles.length > 0 && docsSig
  -- the per-branch locals of the source (codeScope, docsScope, verbCode,
  -- verbDocs, rightNoun, docsPhrase) are pure and are hoisted above the
  -- branches
  let codeScope0 := detectScope codeFiles
  let codeScope := if codeScope0.isEmpty then scope else codeScope0
  let docsScopeConv := if hasReadme then str "readme" else []
  let docsPhrase :=
    if !docTopic.isEmpty then docTopic
    else if docsScopeConv = str "readme" then str "README" else str "docs"
  let docsScopeTxt := if hasReadme then str "README" else str "docs"
  let verbCode := pickVerb type VerbDomain.code variant
  let verbDocs := pickVerb (str "docs") VerbDomain.docs variant
  let rightNoun :=
    if !docTopic.isEmpty then
      (if docsScopeTxt = str "README" then str "README " ++ docTopic else docTopic)
    else docsScopeTxt
  let convCand : Str :=
    if isMixed then
      mkConv type ((if codeScope.isEmpty then [] else str "(" ++ codeScope ++ str ")") ++
        str ": " ++ selectedDesc.noun ++ str "; " ++ str "docs" ++
        (if docsScopeConv.isEmpty then [] else str "(" ++ docsScopeConv ++ str ")") ++
        str ": update " ++ docsPhrase)
    else
      mkConv type ((if scope.isEmpty then [] else str "(" ++ scope ++ str ")") ++
        str ": " ++ selectedDesc.noun)
  let plainCand : Str :=
    if isMixed then
      mkPlainMixed verbCode
        (str " " ++ selectedDesc.noun ++ str " and " ++ verbDocs ++ str " " ++ rightNoun)
    else mkPlain selectedDesc.verb (str " " ++ selectedDesc.noun)
  let gitmojiCand : Str :=
    if isMixed then
      mkGitmoji type (str " " ++ verbCode ++ str " " ++ selectedDesc.noun ++ str "; " ++
        str "📝 " ++ verbDocs ++ str " " ++ rightNoun)
    else
      mkGitmoji type (str " " ++ (if scope.isEmpty then [] else scope ++ str ": ") ++
        selectedDesc.verb ++ str " " ++ selectedDesc.noun)
  finishCandidates msgStyle files type scope variant selIdx descriptions
    convCand plainCand gitmojiCand

/-- `generateHeuristic` (heuristic.ts lines 248-392): the exported entry
point, reading `changes.files`, `changes.diff`, `config.style` and
`config.regen`. -/
def generateHeuristic (cs : ChangeSet) (cfg : Config) : List Str :=
  generateHeuristicCore cs.files cs.diff cfg.msgStyle cfg.regen

end Heuristic

namespace P1

/-- `ExtractedEntities` (part_001 lines 434-441), as consumed by
`detectChangeType`. -/
structure Entities where
  functions : List Str
  classes : List Str
  components : List Str
  /-- the source field is called `variables`, a reserved word here -/
  vars : List Str
  dependencies : List Str
  hasErrorHandling : Bool
deriving DecidableEq, Repr

/-- The primary-focus labels of the part_001 revision (lines 726-733). -/
inductive P1Focus where
  | newEngine | multiEngine | engineRefactor | coreRefactor | deps | singleFile | generic
deriving DecidableEq, Repr

/-- The string value of a focus label (in the source these labels are the
string union itself). -/
def focusStr : P1Focus → Str
  | P1Focus.newEngine => str "new-engine"
  | P1Focus.multiEngine => str "multi-engine"
  | P1Focus.engineRefactor => str "engine-refactor"
  | P1Focus.coreRefactor => str "core-refactor"
  | P1Focus.deps => str "deps"
  | P1Focus.singleFile => str "single-file"
  | P1Focus.generic => str "generic"

/-- `isDocFile` (part_001 lines 1039-1041). -/
def isDocFile (p : Str) : Bool :=
  endsWithAny (toLowerStr p) [str ".md", str ".txt", str ".rst", str ".adoc"]

/-- `/\b(fix|bug|issue|patch|resolve[sd]?|correct)\b/i` (line 920). -/
def fixKw (diff : Str) : Bool :=
  hasWordToken [str "fix", str "bug", str "issue", str "patch",
    str "resolve", str "resolves", str "resolved", str "correct"] diff

/-- `/\.test\.|_test\.|spec\.|__tests__/` on a path (line 922). -/
def testPath (files : List FileChange) : Bool :=
  files.any (fun f => containsSub f.path (str ".test.") || containsSub f.path (str "_test.") ||
    containsSub f.path (str "spec.") || containsSub f.path (str "__tests__"))

/-- `/\b(refactor|restructure|cleanup|simplify)\b/i` (line 924). -/
def refactorKw (diff : Str) : Bool :=
  hasWordToken [str "refactor", str "restructure", str "cleanup", str "simplify"] diff

/-- `/\.(css|scss|less|styl)$/` (line 926). -/
def styleFile (files : List FileChange) : Bool :=
  files.any (fun f => endsWithAny f.path [str ".css", str ".scss", str ".less", str ".styl"])

/-- `/(package-lock|yarn\.lock)/` (line 927). -/
def lockfileTouch (files : List FileChange) : Bool :=
  files.any (fun f => containsSub f.path (str "package-lock") || containsSub f.path (str "yarn.lock"))

/-- A newly added non-documentation file exists (line 917). -/
def addedCode (files : List FileChange) : Bool :=
  files.any (fun f => f.status = FStatus.A && !isDocFile f.path)

/-- New functions, classes or components were extracted (lines 913-916). -/
def hasNewEntities (e : Entities) : Bool :=
  e.functions.length > 0 || e.classes.length > 0 || e.components.length > 0

/-- `detectChangeType` (part_001 lines 902-931). -/
def detectChangeType (files : List FileChange) (diff : Str) (e : Entities) (φ : P1Focus) : Str :=
  if files.all (fun f => isDocFile f.path) then str "docs"
  else if e.dependencies.length > 0 then str "chore"
  else if containsSub (focusStr φ) (str "refactor") then str "refactor"
  else if e.hasErrorHandling then str "fix"
  else if addedCode files || hasNewEntities e then str "feat"
  else if fixKw diff then str "fix"
  else if testPath files then str "test"
  else if refactorKw diff then str "refactor"
  else if styleFile files then str "style"
  else if lockfileTouch files then str "chore"
  else str "chore"

/-- First-match evaluation of an ordered decision table. -/
def cascadeEval (dflt : Str) : List (Bool × Str) → Str
  | [] => dflt
  | (b, r) :: rest => if b then r else cascadeEval dflt rest

/-- The decision table actually implemented by `P1.detectChangeType`,
in evaluation order. -/
def p1Rules (files : List FileChange) (diff : Str) (e : Entities) (φ : P1Focus) :
    List (Bool × Str) :=
  [(files.all (fun f => isDocFile f.path), str "docs"),
   (e.dependencies.length > 0, str "chore"),
   (containsSub (focusStr φ) (str "refactor"), str "refactor"),
   (e.hasErrorHandling, str "fix"),
   (addedCode files || hasNewEntities e, str "feat"),
   (fixKw diff, str "fix"),
   (testPath files, str "test"),
   (refactorKw diff, str "refactor"),
   (styleFile files, str "style"),
   (lockfileTouch files, str "chore")]

/-- The parent directory of a path (all segments but the last). -/
def parentOf (p : Str) : List Str := (splitOnChar '/' p).dropLast

/-- Modelled from the spec: the claim's step (5), a file-replacement
pattern — some added and some deleted file share a parent directory. -/
def replacementPair (files : List FileChange) : Bool :=
  files.any (fun a => a.status = FStatus.A &&
    files.any (fun d => d.status = FStatus.D && parentOf a.path = parentOf d.path))

/-- Modelled from the spec: the eleven-step cascade exactly as claim C3
words it, reusing the source's own predicates for each step.  This
definition follows the claim, not the code; it is the comparison object. -/
def specCascade (files : List FileChange) (diff : Str) (e : Entities) (φ : P1Focus) : Str :=
  if files.all (fun f => isDocFile f.path) then str "docs"
  else if φ = P1Focus.engineRefactor || φ = P1Focus.coreRefactor then str "refactor"
  else if φ = P1Focus.newEngine || φ = P1Focus.multiEngine then str "feat"
  else if e.dependencies.length > 0 then str "chore"
  else if replacementPair files then str "refactor"
  else if addedCode files || hasNewEntities e then str "feat"
  else if fixKw diff then str "fix"
  else if testPath files ||
      hasWordToken [str "test", str "spec", str "jest", str "mocha", str "pytest"] diff then str "test"
  else if refactorKw diff then str "refactor"
  else if styleFile files ||
      hasWordToken [str "style", str "format", str "prettier", str "eslint", str "lint"] diff then str "style"
  else if lockfileTouch files then str "chore"
  else if (files.head?).map (fun f => f.status) = some FStatus.A then str "feat"
  else str "chore"

/-- `reduce((s, f) => s + Math.max(1, additions + deletions), 0)`:
churn-weighted sum of a file subset (part_001 lines 558-565). -/
def churnSum (l : List FileChange) : Nat :=
  l.foldl (fun s f => s + Heuristic.fileWeight f) 0

/-- The architectural focus class of the significance evaluator
(part_001 lines 567-572). -/
def isArch (φ : P1Focus) : Bool :=
  φ = P1Focus.engineRefactor || φ = P1Focus.newEngine ||
  φ = P1Focus.multiEngine || φ = P1Focus.coreRefactor

/-- The `docsSignificant` computation (part_001 lines 567-577): doc files
must exist, and either no code files exist or the doc churn reaches the
ceiling of the threshold fraction of the total churn (0.6 during an
architectural focus, 0.4 otherwise). -/
def docsSignificant (docsFiles codeFiles : List FileChange) (φ : P1Focus) : Bool :=
  let docWeight := churnSum docsFiles
  let codeWeight := churnSum codeFiles
  -- `docWeight >= Math.ceil((codeWeight + docWeight) * (isArch ? 0.6 : 0.4))`
  let ceilThr :=
    if isArch φ then (3 * (codeWeight + docWeight) + 4) / 5
    else (2 * (codeWeight + docWeight) + 4) / 5
  docsFiles.length > 0 && (codeFiles.length = 0 || docWeight ≥ ceilThr)

/-- Modelled from the spec: claim C5's wording — significant exactly when
there are no code files at all, or the docs weight reaches the threshold
fraction of the total weight.  Comparison object, not the code. -/
def specDocsSignificant (docsFiles codeFiles : List FileChange) (φ : P1Focus) : Bool :=
  let docWeight := churnSum docsFiles
  let codeWeight := churnSum codeFiles
  let k := if isArch φ then 3 else 2
  codeFiles.length = 0 || 5 * docWeight ≥ k * (codeWeight + docWeight)

/-- The fallback-literal injection (part_001 lines 587-589):
`if (allDescriptions.length === 0) push({verb: "update", noun: "files"})`. -/
def withFallback (l : List Desc) : List Desc :=
  if l.isEmpty then [⟨str "update", str "files"⟩] else l

/-- The regeneration reordering (part_001 lines 590-598): the description at
index `variant % length` becomes primary, followed by the entries before it
and then the entries after it. -/
def reorderDescriptions (l : List Desc) (variant : Nat) : List Desc :=
  if l.isEmpty then []
  else
    let p := variant % l.length
    l.getD p ⟨str "update", str "files"⟩ :: (l.take p ++ l.drop (p + 1))

/-- Modelled from the spec: claim C6's wording — a rotation of the list that
continues with the entries after the primary.  Comparison object. -/
def specRotation (l : List Desc) (variant : Nat) : List Desc :=
  if l.isEmpty then []
  else l.drop (variant % l.length) ++ l.take (variant % l.length)

end P1

namespace Generator

/-- `s.replace(/\.+$/, '')`. -/
def stripTrailingDots (s : Str) : Str :=
  (s.reverse.dropWhile (fun c => c = '.')).reverse

/-- `s.lastIndexOf(' ')` as an option (JavaScript returns `-1` for none). -/
def lastSpaceIdx (s : Str) : Option Nat :=
  ((List.range s.length).filter (fun i => s.getD i '?' = ' ')).getLast?

/-- `enforceMaxLength` (generator.ts lines 34-44): trim, strip trailing
periods, and truncate to `maxLen` when longer, preferring a word boundary
past 70% of the width (`lastSpace > maxLen * 0.7` becomes
`10 * lastSpace > 7 * maxLen`). -/
def enforceMaxLength (message : Str) (maxLen : Nat) : Str :=
  let msg := stripTrailingDots (trimStr message)
  if msg.length ≤ maxLen then msg
  else
    let trimmed := msg.take maxLen
    match lastSpaceIdx trimmed with
    | some i => if 10 * i > 7 * maxLen then trimmed.take i else trimmed
    | none => trimmed

/-- `generateCandidates` (generator.ts lines 8-32) on the deterministic
path (`engine` is `none`/default): the heuristic engine's candidates mapped
through `enforceMaxLength`.  The network branches of the switch are external
collaborators and out of scope. -/
def generateCandidates (cs : ChangeSet) (cfg : Config) : List Str :=
  (Heuristic.generateHeuristic cs cfg).map (fun c => enforceMaxLength c cfg.maxLen)

end Generator

/-- Lookup in the insertion-ordered category map (0 when absent), used to
state the categorizer's accumulation property. -/
def lookupWeight (m : List (Str × Nat)) (k : Str) : Nat :=
  match m with
  | [] => 0
  | (k2, w) :: rest => if k2 = k then w else lookupWeight rest k

/-- The change-type vocabulary that `Heuristic.detectChangeType` draws from. -/
def typeList : List Str :=
  [str "docs", str "refactor", str "feat", str "fix", str "test", str "style", str "chore"]

/-- Every verb the description builder can produce: the union of the
`pickVerb` pools and the literals of `getVerbForFocus` /
`buildDescriptions`. -/
def allVerbs : List Str :=
  [str "clarify", str "update", str "improve", str "refine", str "adjust",
   str "refactor", str "simplify", str "restructure", str "tune", str "maintain",
   str "introduce", str "add", str "implement", str "fix", str "address",
   str "resolve", str "correct", str "optimize", str "enhance", str "modify"]

/-- First characters of the change-type vocabulary (all lower-case ASCII). -/
def lowHeads : List Char := ['d', 'r', 'f', 't', 's', 'c']

/-- First characters of capitalized verbs (all upper-case ASCII). -/
def upHeads : List Char :=
  ['C', 'U', 'I', 'R', 'A', 'S', 'T', 'M', 'F', 'O', 'E']

/-- First characters of the emoji vocabulary (all outside ASCII). -/
def emojiHeads : List Char :=
  ['✨', '🐛', '📝', '💄', '♻', '✅', '🔧', '⚡', '📦', '👷', '⏪', '🔨']

/-- A concrete three-description list used to exercise the regeneration
reordering on an input where the reordering and a rotation differ. -/
def exDescs : List Desc :=
  [⟨str "add", str "x"⟩, ⟨str "fix", str "y"⟩, ⟨str "update", str "z"⟩]

/-- A property holding on every member and on the default holds on `getD`. -/
theorem aux_getD_prop {α : Type} (p : α → Prop) (l : List α) (n : Nat) (d : α)
    (hl : ∀ x ∈ l, p x) (hd : p d) : p (l.getD n d) := by
  by_cases h : n < l.length
  · rw [List.getD_eq_getElem l d h]; exact hl _ (List.getElem_mem h)
  · rw [List.getD_eq_default l d (Nat.le_of_not_lt h)]; exact hd

/-- Appending a fresh element preserves `Nodup`. -/
theorem aux_nodup_push (l : List Str) (a : Str) (h : l.Nodup) (ha : a ∉ l) :
    (l ++ [a]).Nodup := by
  rw [List.nodup_append]
  refine ⟨h, List.nodup_singleton a, ?_⟩
  intro x hx hax
  simp only [List.mem_singleton] at hax
  exact ha (hax ▸ hx)

/-- Strings with distinct head characters are distinct. -/
theorem aux_ne_of_head (s t : Str) (a b : Char) (hs : s.head? = some a)
    (ht : t.head? = some b) (hab : a ≠ b) : s ≠ t := by
  intro h
  rw [h, ht] at hs
  exact hab (Option.some.inj hs).symm

theorem aux_poolsFn_pos (k : Str) : 0 < (Heuristic.poolsFn k).length := by
  unfold Heuristic.poolsFn
  split <;> first | decide | (split <;> first | decide | (split <;> first | decide | (split <;> first | decide | (split <;> first | decide | (split <;> decide)))))

theorem aux_poolsFn_sub (k : Str) : ∀ v ∈ Heuristic.poolsFn k, v ∈ allVerbs := by
  unfold Heuristic.poolsFn
  split <;> first | decide | (split <;> first | decide | (split <;> first | decide | (split <;> first | decide | (split <;> first | decide | (split <;> decide)))))

theorem aux_seededIndex_lt (len v s : Nat) (h : 0 < len) :
    Heuristic.seededIndex len v s < len := by
  unfold Heuristic.seededIndex
  rw [if_pos h]
  exact Nat.mod_lt _ h

theorem aux_pickVerb_mem (t : Str) (d : Heuristic.VerbDomain) (v : Nat) :
    Heuristic.pickVerb t d v ∈ allVerbs := by
  unfold Heuristic.pickVerb
  have h1 := aux_poolsFn_pos (Heuristic.verbKey t d)
  have h2 := aux_seededIndex_lt _ v (charCodeSum (Heuristic.verbKey t d)) h1
  rw [List.getD_eq_getElem _ _ h2]
  exact aux_poolsFn_sub _ _ (List.getElem_mem h2)

theorem aux_getVerbForFocus_mem (f : Heuristic.HFocus) (t : Str) (v : Nat) :
    Heuristic.getVerbForFocus f t v ∈ allVerbs := by
  unfold Heuristic.getVerbForFocus Heuristic.getDefaultVerb
  split
  · decide
  · split
    · split <;> decide
    · split
      · decide
      · exact aux_pickVerb_mem _ _ _

theorem aux_getDefaultVerb_mem (t : Str) (v : Nat) :
    Heuristic.getDefaultVerb t v ∈ allVerbs := by
  unfold Heuristic.getDefaultVerb
  exact aux_pickVerb_mem _ _ _

theorem aux_detectChangeType_mem (files : List FileChange) (diff : Str)
    (φ : Heuristic.HFocus) : Heuristic.detectChangeType files diff φ ∈ typeList := by
  unfold Heuristic.detectChangeType
  repeat' split
  all_goals decide

theorem aux_mem_ite {α : Type} {d : α} {c : Prop} [Decidable c] {l1 l2 : List α}
    (hd : d ∈ if c then l1 else l2) : d ∈ l1 ∨ d ∈ l2 := by
  by_cases h : c
  · rw [if_pos h] at hd; exact Or.inl hd
  · rw [if_neg h] at hd; exact Or.inr hd

theorem aux_descFirst_verb (files : List FileChange) (type : Str)
    (pf : Heuristic.PrimaryFocus) : (Heuristic.descFirst files type pf).verb ∈ allVerbs := by
  unfold Heuristic.descFirst
  cases h : pf.focus <;>
    simp only [] <;>
    first
      | exact aux_getVerbForFocus_mem _ _ _
      | exact (by decide : str "refactor" ∈ allVerbs)

theorem aux_descSupporting_verb (files : List FileChange) (type : Str)
    (pf : Heuristic.PrimaryFocus) :
    ∀ d ∈ Heuristic.descSupporting files type pf, d.verb ∈ allVerbs := by
  intro d hd
  unfold Heuristic.descSupporting at hd
  rcases aux_mem_ite hd with hd | hd
  · rcases aux_mem_ite hd with hd | hd
    · simp only [List.mem_singleton] at hd
      subst hd
      exact aux_getVerbForFocus_mem _ _ _
    · exact absurd hd (List.not_mem_nil d)
  · exact absurd hd (List.not_mem_nil d)

theorem aux_descEngines_verb (files : List FileChange) (type : Str)
    (pf : Heuristic.PrimaryFocus) (variant lenSoFar : Nat) :
    ∀ d ∈ Heuristic.descEngines files type pf variant lenSoFar, d.verb ∈ allVerbs := by
  intro d hd
  unfold Heuristic.descEngines at hd
  rcases aux_mem_ite hd with hd | hd
  · generalize (((Heuristic.modifiedEnginesOf files).map (fun f =>
        Heuristic.capitalizeFirst (dropExt ((splitOnChar '/' f.path).getLastD [])))).filter
        (fun n => !n.isEmpty)).take 2 = L at hd
    rcases L with _ | ⟨x, _ | ⟨y, ys⟩⟩ <;> simp only [List.mem_singleton] at hd
    · exact absurd hd (List.not_mem_nil d)
    · subst hd; exact aux_getDefaultVerb_mem _ _
    · subst hd; exact aux_getDefaultVerb_mem _ _
  · exact absurd hd (List.not_mem_nil d)

theorem aux_descCategories_verb (files : List FileChange) (type : Str)
    (pf : Heuristic.PrimaryFocus) (categories : List (Str × Nat)) (variant lenSoFar : Nat) :
    ∀ d ∈ Heuristic.descCategories files type pf categories variant lenSoFar,
      d.verb ∈ allVerbs := by
  intro d hd
  unfold Heuristic.descCategories at hd
  rcases aux_mem_ite hd with hd | hd
  · rcases aux_mem_ite hd with hd | hd
    · simp only [List.mem_singleton] at hd
      subst hd
      exact aux_getDefaultVerb_mem _ _
    · exact absurd hd (List.not_mem_nil d)
  · exact absurd hd (List.not_mem_nil d)

theorem aux_descScope_verb (files : List FileChange) (type : Str)
    (pf : Heuristic.PrimaryFocus) (scope : Str) (categories : List (Str × Nat))
    (variant lenSoFar : Nat) :
    ∀ d ∈ Heuristic.descScope files type pf scope categories variant lenSoFar,
      d.verb ∈ allVerbs := by
  intro d hd
  unfold Heuristic.descScope at hd
  rcases aux_mem_ite hd with hd | hd
  · generalize (Heuristic.sortDesc categories).head? = o at hd
    rcases o with _ | topCat <;> simp only [] at hd
    · exact absurd hd (List.not_mem_nil d)
    · rcases aux_mem_ite hd with hd | hd
      · simp only [List.mem_singleton] at hd
        subst hd
        exact aux_getDefaultVerb_mem _ _
      · exact absurd hd (List.not_mem_nil d)
  · exact absurd hd (List.not_mem_nil d)

theorem aux_descFallback_verb (files : List FileChange) (type : Str) (variant : Nat)
    (soFar : List Desc) :
    ∀ d ∈ Heuristic.descFallback files type variant soFar, d.verb ∈ allVerbs := by
  intro d hd
  unfold Heuristic.descFallback at hd
  rcases aux_mem_ite hd with hd | hd
  · rcases aux_mem_ite hd with hd | hd
    · exact absurd hd (List.not_mem_nil d)
    · simp only [List.mem_singleton] at hd
      subst hd
      exact aux_getDefaultVerb_mem _ _
  · exact absurd hd (List.not_mem_nil d)

theorem aux_buildDescriptions_verb_mem (files : List FileChange) (type : Str)
    (pf : Heuristic.PrimaryFocus) (scope : Str) (categories : List (Str × Nat))
    (variant : Nat) :
    ∀ d ∈ Heuristic.buildDescriptions files type pf scope categories variant,
      d.verb ∈ allVerbs := by
  intro d hd
  unfold Heuristic.buildDescriptions at hd
  simp only [List.mem_append, List.mem_singleton] at hd
  rcases hd with ((((hd | hd) | hd) | hd) | hd) | hd
  · subst hd; exact aux_descFirst_verb _ _ _
  · exact aux_descSupporting_verb _ _ _ d hd
  · exact aux_descEngines_verb _ _ _ _ _ d hd
  · exact aux_descCategories_verb _ _ _ _ _ _ d hd
  · exact aux_descScope_verb _ _ _ _ _ _ _ d hd
  · exact aux_descFallback_verb _ _ _ _ d hd

theorem aux_allVerbs_head_decide :
    ∀ v ∈ allVerbs, v ≠ [] ∧ upperChar (v.headD ' ') ∈ upHeads := by decide

theorem aux_allVerbs_head (v : Str) (h : v ∈ allVerbs) :
    ∃ c cs, v = c :: cs ∧ upperChar c ∈ upHeads := by
  obtain ⟨hne, hc⟩ := aux_allVerbs_head_decide v h
  cases v with
  | nil => exact absurd rfl hne
  | cons c cs => exact ⟨c, cs, rfl, hc⟩

theorem aux_typeList_head_decide :
    ∀ t ∈ typeList, t ≠ [] ∧ (t.headD ' ') ∈ lowHeads := by decide

theorem aux_typeList_head (t : Str) (h : t ∈ typeList) :
    ∃ c cs, t = c :: cs ∧ c ∈ lowHeads := by
  obtain ⟨hne, hc⟩ := aux_typeList_head_decide t h
  cases t with
  | nil => exact absurd rfl hne
  | cons c cs => exact ⟨c, cs, rfl, hc⟩

theorem aux_mkConv_head (type tail : Str) (h : type ∈ typeList) :
    ∃ c ∈ lowHeads, (Heuristic.mkConv type tail).head? = some c := by
  obtain ⟨c, cs, rfl, hc⟩ := aux_typeList_head type h
  exact ⟨c, hc, rfl⟩

theorem aux_mkPlain_head (verb tail : Str) (h : verb ∈ allVerbs) :
    ∃ c ∈ upHeads, (Heuristic.mkPlain verb tail).head? = some c := by
  obtain ⟨c, cs, rfl, hc⟩ := aux_allVerbs_head verb h
  exact ⟨upperChar c, hc, rfl⟩

theorem aux_mkPlainMixed_head (verb tail : Str) (h : verb ∈ allVerbs) :
    ∃ c ∈ upHeads, (Heuristic.mkPlainMixed verb tail).head? = some c := by
  obtain ⟨c, cs, rfl, hc⟩ := aux_allVerbs_head verb h
  exact ⟨upperChar c, hc, rfl⟩

set_option maxHeartbeats 1600000 in
theorem aux_mkGitmoji_head (type tail : Str) :
    ∃ c ∈ emojiHeads, (Heuristic.mkGitmoji type tail).head? = some c := by
  unfold Heuristic.mkGitmoji Heuristic.getEmoji
  repeat' split
  all_goals refine ⟨_, ?_, rfl⟩
  all_goals decide

theorem aux_contains_mem (l : List Str) (a : Str) : l.contains a = true ↔ a ∈ l := by
  simp [List.contains]

theorem aux_altLoop_nodup (g : Bool) (e s : Str) (si : Nat) :
    ∀ (ds : List Desc) (i : Nat) (cs : List Str), cs.Nodup →
      (Heuristic.altLoop g e s si ds i cs).Nodup := by
  intro ds
  induction ds with
  | nil => intro i cs h; simpa [Heuristic.altLoop] using h
  | cons d rest ih =>
    intro i cs h
    unfold Heuristic.altLoop
    split
    · split
      · exact ih _ _ h
      · split
        · exact ih _ _ h
        · refine ih _ _ (aux_nodup_push _ _ h ?_)
          intro hmem
          simp_all [aux_contains_mem]
    · exact h

theorem aux_altLoop_len_le (g : Bool) (e s : Str) (si : Nat) :
    ∀ (ds : List Desc) (i : Nat) (cs : List Str), cs.length ≤ 3 →
      (Heuristic.altLoop g e s si ds i cs).length ≤ 3 := by
  intro ds
  induction ds with
  | nil => intro i cs h; simpa [Heuristic.altLoop] using h
  | cons d rest ih =>
    intro i cs h
    unfold Heuristic.altLoop
    split
    · split
      · exact ih _ _ h
      · split
        · exact ih _ _ h
        · refine ih _ _ ?_
          simp only [List.length_append, List.length_singleton]
          omega
    · exact h

theorem aux_altLoop_len_ge (g : Bool) (e s : Str) (si : Nat) :
    ∀ (ds : List Desc) (i : Nat) (cs : List Str),
      cs.length ≤ (Heuristic.altLoop g e s si ds i cs).length := by
  intro ds
  induction ds with
  | nil => intro i cs; simp [Heuristic.altLoop]
  | cons d rest ih =>
    intro i cs
    unfold Heuristic.altLoop
    split
    · split
      · exact ih _ _
      · split
        · exact ih _ _
        · calc cs.length ≤ (cs ++ [Heuristic.altRender g e s d]).length := by simp
            _ ≤ _ := ih _ _
    · exact Nat.le_refl _

theorem aux_fillLoop_nodup (files : List FileChange) (t s : Str) (v : Nat) :
    ∀ (fuel : Nat) (cs : List Str), cs.Nodup →
      (Heuristic.fillLoop files t s v fuel cs).Nodup := by
  intro fuel
  induction fuel with
  | zero => intro cs h; simpa [Heuristic.fillLoop] using h
  | succ n ih =>
    intro cs h
    unfold Heuristic.fillLoop
    split
    · split
      · exact h
      · refine ih _ (aux_nodup_push _ _ h ?_)
        intro hmem
        simp_all [aux_contains_mem]
    · exact h

theorem aux_fillLoop_len_le (files : List FileChange) (t s : Str) (v : Nat) :
    ∀ (fuel : Nat) (cs : List Str), cs.length ≤ 3 →
      (Heuristic.fillLoop files t s v fuel cs).length ≤ 3 := by
  intro fuel
  induction fuel with
  | zero => intro cs h; simpa [Heuristic.fillLoop] using h
  | succ n ih =>
    intro cs h
    unfold Heuristic.fillLoop
    split
    · split
      · exact h
      · refine ih _ ?_
        simp only [List.length_append, List.length_singleton]
        omega
    · exact h

theorem aux_fillLoop_len_ge (files : List FileChange) (t s : Str) (v : Nat) :
    ∀ (fuel : Nat) (cs : List Str),
      cs.length ≤ (Heuristic.fillLoop files t s v fuel cs).length := by
  intro fuel
  induction fuel with
  | zero => intro cs; simp [Heuristic.fillLoop]
  | succ n ih =>
    intro cs
    unfold Heuristic.fillLoop
    split
    · split
      · exact Nat.le_refl _
      · calc cs.length
            ≤ (cs ++ [Heuristic.generateAlternative files t s v cs.length]).length := by simp
          _ ≤ _ := ih _
    · exact Nat.le_refl _

theorem aux_low_not_up : ∀ a ∈ lowHeads, a ∉ upHeads := by decide

theorem aux_low_not_emoji : ∀ a ∈ lowHeads, a ∉ emojiHeads := by decide

theorem aux_up_not_emoji : ∀ a ∈ upHeads, a ∉ emojiHeads := by decide

theorem aux_baseCands_props (st : MsgStyle) (cc cp cg : Str)
    (hc : ∃ c ∈ lowHeads, cc.head? = some c)
    (hp : ∃ c ∈ upHeads, cp.head? = some c)
    (hg : ∃ c ∈ emojiHeads, cg.head? = some c) :
    (Heuristic.baseCands st cc cp cg).Nodup ∧
      1 ≤ (Heuristic.baseCands st cc cp cg).length ∧
      (Heuristic.baseCands st cc cp cg).length ≤ 3 := by
  obtain ⟨a, ha, hca⟩ := hc
  obtain ⟨b, hb, hpb⟩ := hp
  obtain ⟨e, he, hge⟩ := hg
  have hab : a ≠ b := fun h => aux_low_not_up a ha (h ▸ hb)
  have hae : a ≠ e := fun h => aux_low_not_emoji a ha (h ▸ he)
  have hbe : b ≠ e := fun h => aux_up_not_emoji b hb (h ▸ he)
  have h1 : cc ≠ cp := aux_ne_of_head _ _ _ _ hca hpb hab
  have h2 : cc ≠ cg := aux_ne_of_head _ _ _ _ hca hge hae
  have h3 : cp ≠ cg := aux_ne_of_head _ _ _ _ hpb hge hbe
  cases st <;> simp [Heuristic.baseCands, h1, h2, h3]

theorem aux_finishCandidates_props (st : MsgStyle) (files : List FileChange)
    (type scope : Str) (variant selIdx : Nat) (descriptions : List Desc)
    (cc cp cg : Str)
    (hc : ∃ c ∈ lowHeads, cc.head? = some c)
    (hp : ∃ c ∈ upHeads, cp.head? = some c)
    (hg : ∃ c ∈ emojiHeads, cg.head? = some c) :
    1 ≤ (Heuristic.finishCandidates st files type scope variant selIdx descriptions cc cp cg).length ∧
    (Heuristic.finishCandidates st files type scope variant selIdx descriptions cc cp cg).length ≤ 3 ∧
    (Heuristic.finishCandidates st files type scope variant selIdx descriptions cc cp cg).Nodup := by
  obtain ⟨hnd, hge, hle⟩ := aux_baseCands_props st cc cp cg hc hp hg
  unfold Heuristic.finishCandidates
  set B := Heuristic.baseCands st cc cp cg with hB
  set A := Heuristic.altLoop (st = MsgStyle.gitmoji) (Heuristic.getEmoji type) scope selIdx
    (descriptions.drop 1) 1 B with hA
  set F := Heuristic.fillLoop files type scope variant 3 A with hF
  have hA_ge : 1 ≤ A.length := le_trans hge (aux_altLoop_len_ge _ _ _ _ _ _ _)
  have hA_le : A.length ≤ 3 := aux_altLoop_len_le _ _ _ _ _ _ _ hle
  have hA_nd : A.Nodup := aux_altLoop_nodup _ _ _ _ _ _ _ hnd
  have hF_ge : 1 ≤ F.length := le_trans hA_ge (aux_fillLoop_len_ge _ _ _ _ _ _)
  have hF_le : F.length ≤ 3 := aux_fillLoop_len_le _ _ _ _ _ _ hA_le
  have hF_nd : F.Nodup := aux_fillLoop_nodup _ _ _ _ _ _ hA_nd
  refine ⟨?_, ?_, ?_⟩
  · rw [List.length_take]
    omega
  · rw [List.length_take]
    omega
  · exact hF_nd.sublist (List.take_sublist 3 F)

theorem aux_head_ite (hset : List Char) (c : Prop) [Decidable c] (s t : Str)
    (h1 : ∃ x ∈ hset, s.head? = some x) (h2 : ∃ x ∈ hset, t.head? = some x) :
    ∃ x ∈ hset, (if c then s else t).head? = some x := by
  by_cases h : c
  · rw [if_pos h]; exact h1
  · rw [if_neg h]; exact h2

set_option maxHeartbeats 2000000 in
theorem aux_gen_bounds (cs : ChangeSet) (cfg : Config) :
    1 ≤ (Heuristic.generateHeuristic cs cfg).length ∧
    (Heuristic.generateHeuristic cs cfg).length ≤ 3 ∧
    (Heuristic.generateHeuristic cs cfg).Nodup := by
  unfold Heuristic.generateHeuristic Heuristic.generateHeuristicCore
  apply aux_finishCandidates_props
  · exact aux_head_ite _ _ _ _
      (aux_mkConv_head _ _ (aux_detectChangeType_mem _ _ _))
      (aux_mkConv_head _ _ (aux_detectChangeType_mem _ _ _))
  · exact aux_head_ite _ _ _ _
      (aux_mkPlainMixed_head _ _ (aux_pickVerb_mem _ _ _))
      (aux_mkPlain_head _ _
        (aux_getD_prop (fun d : Desc => d.verb ∈ allVerbs) _ _ _
          (aux_buildDescriptions_verb_mem _ _ _ _ _ _)
          (by decide : (⟨str "update", str "files"⟩ : Desc).verb ∈ allVerbs)))
  · exact aux_head_ite _ _ _ _ (aux_mkGitmoji_head _ _) (aux_mkGitmoji_head _ _)

theorem aux_pickBest_mem (cnt : Str → Nat) :
    ∀ (keys : List Str) (acc : Option Str) (b : Str),
      (keys.foldl
        (fun acc k =>
          if cnt k > 0 then
            match acc with
            | none => some k
            | some b0 => if cnt k > cnt b0 then some k else acc
          else acc)
        acc) = some b →
      acc = some b ∨ b ∈ keys := by
  intro keys
  induction keys with
  | nil => intro acc b h; exact Or.inl h
  | cons k ks ih =>
    intro acc b h
    rw [List.foldl_cons] at h
    rcases ih _ _ h with h2 | h2
    · by_cases hc : cnt k > 0
      · rw [if_pos hc] at h2
        cases acc with
        | none =>
          right
          simp only [Option.some.injEq] at h2
          exact h2 ▸ List.mem_cons_self k ks
        | some b0 =>
          simp only [] at h2
          by_cases hgt : cnt k > cnt b0
          · rw [if_pos hgt] at h2
            right
            simp only [Option.some.injEq] at h2
            exact h2 ▸ List.mem_cons_self k ks
          · rw [if_neg hgt] at h2
            exact Or.inl h2
      · rw [if_neg hc] at h2
        exact Or.inl h2
    · exact Or.inr (List.mem_cons_of_mem _ h2)

theorem aux_pickBest_mem_keys (cnt : Str → Nat) (keys : List Str) (b : Str)
    (h : Heuristic.pickBest cnt keys = some b) : b ∈ keys := by
  unfold Heuristic.pickBest at h
  rcases aux_pickBest_mem cnt keys none b h with h2 | h2
  · exact absurd h2 (by simp)
  · exact h2

theorem aux_capToken_le15 (o : Option Str) : (Heuristic.capToken o).length ≤ 15 := by
  rcases o with _ | s
  · simp [Heuristic.capToken]
  · simp only [Heuristic.capToken]
    split
    · next h =>
      simp only [Bool.and_eq_true, decide_eq_true_eq] at h
      exact h.2
    · simp

theorem aux_domainKeys_le15 : ∀ s ∈ Heuristic.domainKeys, s.length ≤ 15 := by decide

theorem aux_bestGuard_some (ok : Str → Bool) (bo : Option Str) (b : Str)
    (h : Heuristic.bestGuard ok bo = some b) : bo = some b := by
  rcases bo with _ | b0
  · simp [Heuristic.bestGuard] at h
  · simp only [Heuristic.bestGuard] at h
    split at h
    · exact congrArg some (Option.some.inj h)
    · exact absurd h (by simp)

theorem aux_scopeDispatch_le15 (bo : Option Str) (fb : Str)
    (hb : ∀ b, bo = some b → b.length ≤ 15) (hf : fb.length ≤ 15) :
    (Heuristic.scopeDispatch bo fb).length ≤ 15 := by
  rcases bo with _ | b
  · simpa [Heuristic.scopeDispatch] using hf
  · simpa [Heuristic.scopeDispatch] using hb b rfl

theorem aux_singleFallback_le15 (paths : List Str) :
    (Heuristic.singleFallback paths).length ≤ 15 :=
  aux_capToken_le15 _

theorem aux_multiFallback_le15 (paths : List Str) :
    (Heuristic.multiFallback paths).length ≤ 15 :=
  aux_capToken_le15 _

theorem aux_ite_str_le15 (c : Prop) [Decidable c] (a b : Str)
    (ha : a.length ≤ 15) (hb : b.length ≤ 15) : (if c then a else b).length ≤ 15 := by
  split
  · exact ha
  · exact hb

theorem aux_detectScope_le15 (files : List FileChange) :
    (Heuristic.detectScope files).length ≤ 15 := by
  unfold Heuristic.detectScope
  split
  · simp
  · refine aux_scopeDispatch_le15 _ _ ?_ ?_
    · intro b hb
      exact aux_domainKeys_le15 b
        (aux_pickBest_mem_keys _ _ _ (aux_bestGuard_some _ _ _ hb))
    · exact aux_ite_str_le15 _ _ _ (aux_singleFallback_le15 _) (aux_multiFallback_le15 _)

theorem aux_lookup_upsert : ∀ (m : List (Str × Nat)) (k c : Str) (w : Nat),
    lookupWeight (Heuristic.upsert m k w) c =
      lookupWeight m c + (if k = c then w else 0) := by
  intro m
  induction m with
  | nil =>
    intro k c w
    simp only [Heuristic.upsert, lookupWeight]
    by_cases h : k = c <;> simp [h]
  | cons kv rest ih =>
    intro k c w
    obtain ⟨k2, w2⟩ := kv
    simp only [Heuristic.upsert]
    split
    · next heq =>
      simp only [lookupWeight]
      by_cases hc : k2 = c
      · subst hc
        rw [if_pos rfl, if_pos rfl, if_pos heq.symm]
      · rw [if_neg hc, if_neg hc, if_neg (heq ▸ hc)]
        omega
    · next hne =>
      simp only [lookupWeight]
      by_cases hc : k2 = c
      · subst hc
        rw [if_pos rfl, if_pos rfl]
        have : ¬ k = k2 := fun h => hne h.symm
        rw [if_neg this]
        omega
      · rw [if_neg hc, if_neg hc, ih]

theorem aux_categorize_fold : ∀ (files : List FileChange) (m : List (Str × Nat)) (c : Str),
    lookupWeight
        (files.foldl
          (fun m f => Heuristic.upsert m (Heuristic.categoryOf f) (Heuristic.effWeight f)) m) c =
      lookupWeight m c +
        ((files.map
          (fun f => if Heuristic.categoryOf f = c then Heuristic.effWeight f else 0)).sum) := by
  intro files
  induction files with
  | nil => intro m c; simp
  | cons f fs ih =>
    intro m c
    rw [List.foldl_cons, ih, aux_lookup_upsert]
    simp only [List.map_cons, List.sum_cons]
    omega

/-- C1: Determinism of the core engine — `generateHeuristic` reads only the
file list, the diff text, the configured style and the regeneration counter,
so two invocations on inputs that agree on those four components return
identical candidate lists; the branch name, the repository name and the
configured maximum length do not influence the output, and no randomness,
clock or shared mutable state exists in the model. -/
theorem C1_determinism (cs1 cs2 : ChangeSet) (cfg1 cfg2 : Config)
    (hf : cs1.files = cs2.files) (hd : cs1.diff = cs2.diff)
    (hs : cfg1.msgStyle = cfg2.msgStyle) (hv : cfg1.regen = cfg2.regen) :
    Heuristic.generateHeuristic cs1 cfg1 = Heuristic.generateHeuristic cs2 cfg2 := by
  unfold Heuristic.generateHeuristic
  rw [hf, hd, hs, hv]

theorem C1_determinism_witness :
    Heuristic.generateHeuristic ⟨[], [], [], []⟩ ⟨MsgStyle.conv, 0, 72⟩ =
      Heuristic.generateHeuristic ⟨[], [], str "main", str "gac-package"⟩
        ⟨MsgStyle.conv, 0, 50⟩ :=
  C1_determinism ⟨[], [], [], []⟩ ⟨[], [], str "main", str "gac-package"⟩
    ⟨MsgStyle.conv, 0, 72⟩ ⟨MsgStyle.conv, 0, 50⟩ rfl rfl rfl rfl

/-- C2: Candidate bounds — for every ChangeSet and configuration the list
returned by `generateHeuristic` has length between 1 and 3 and contains no
two equal strings (case-sensitive list-of-character equality). -/
theorem C2_candidate_bounds (cs : ChangeSet) (cfg : Config) :
    1 ≤ (Heuristic.generateHeuristic cs cfg).length ∧
    (Heuristic.generateHeuristic cs cfg).length ≤ 3 ∧
    (Heuristic.generateHeuristic cs cfg).Nodup :=
  aux_gen_bounds cs cfg

/-- C4: Seeded selection — for every pool length greater than 0 and all
variant and salt values, `seededIndex` equals
`((variant*9301 + 49297 + salt*233) % 233280) % poolLength`, is always a
valid index into the pool, is periodic in the variant with period 233280
(and with period `poolLength` whenever `poolLength` divides 233280), and
`pickVerb` always returns an entry of the fixed verb vocabulary, so the
same `(type, variant)` pair always yields the same pool entry. -/
theorem C4_seeded_selection (len v salt : Nat) (h : 0 < len) :
    Heuristic.seededIndex len v salt = ((v * 9301 + 49297 + salt * 233) % 233280) % len ∧
    Heuristic.seededIndex len v salt < len ∧
    Heuristic.seededIndex len (v + 233280) salt = Heuristic.seededIndex len v salt ∧
    (len ∣ 233280 →
      Heuristic.seededIndex len (v + len) salt = Heuristic.seededIndex len v salt) ∧
    (∀ t d, Heuristic.pickVerb t d v ∈ allVerbs) := by
  refine ⟨?_, ?_, ?_, ?_, fun t d => aux_pickVerb_mem t d v⟩
  · simp only [Heuristic.seededIndex, if_pos h]
  · simp only [Heuristic.seededIndex, if_pos h]
    exact Nat.mod_lt _ h
  · simp only [Heuristic.seededIndex, if_pos h]
    have e : (v + 233280) * 9301 + 49297 + salt * 233
        = (v * 9301 + 49297 + salt * 233) + 9301 * 233280 := by ring
    rw [e, Nat.add_mul_mod_self_right]
  · intro hdvd
    simp only [Heuristic.seededIndex, if_pos h]
    rw [Nat.mod_mod_of_dvd _ hdvd, Nat.mod_mod_of_dvd _ hdvd]
    have e : (v + len) * 9301 + 49297 + salt * 233
        = (v * 9301 + 49297 + salt * 233) + 9301 * len := by ring
    rw [e, Nat.add_mul_mod_self_right]

theorem C4_seeded_selection_witness :
    0 < 4 ∧
      (Heuristic.seededIndex 4 7 425 = ((7 * 9301 + 49297 + 425 * 233) % 233280) % 4 ∧
       Heuristic.seededIndex 4 7 425 < 4 ∧
       Heuristic.seededIndex 4 (7 + 233280) 425 = Heuristic.seededIndex 4 7 425 ∧
       ((4 : Nat) ∣ 233280 →
         Heuristic.seededIndex 4 (7 + 4) 425 = Heuristic.seededIndex 4 7 425) ∧
       (∀ t d, Heuristic.pickVerb t d 7 ∈ allVerbs)) :=
  ⟨by decide, C4_seeded_selection 4 7 425 (by decide)⟩

/-- C7: Categorizer weighting — each file is assigned exactly one category
by `categoryOf`; the accumulated total of every category equals the sum,
over the files assigned to it, of the effective weight
`max(1, additions + deletions)`, doubled exactly when the file's status is
Added. -/
theorem C7_categorizer_weights (files : List FileChange) (c : Str) :
    lookupWeight (Heuristic.categorizeFiles files) c =
      ((files.map (fun f =>
        if Heuristic.categoryOf f = c then Heuristic.effWeight f else 0)).sum) ∧
    (∀ f : FileChange, Heuristic.effWeight f =
      if f.status = FStatus.A then 2 * max 1 (f.additions + f.deletions)
      else max 1 (f.additions + f.deletions)) ∧
    (∀ f : FileChange, ∃! cat : Str, Heuristic.categoryOf f = cat) := by
  refine ⟨?_, fun f => rfl, fun f => ⟨Heuristic.categoryOf f, rfl, fun y hy => hy.symm⟩⟩
  have h := aux_categorize_fold files [] c
  simpa [Heuristic.categorizeFiles, lookupWeight] using h

/-- C8: Scope length bound — `detectScope` never returns a token longer than
15 characters, and `capToken` (through which both the single-file and the
common-prefix fallback tokens pass) discards any candidate longer than 15
characters, returning the empty string instead. -/
theorem C8_scope_length_bound (files : List FileChange) (s : Str)
    (h : 15 < s.length) :
    (Heuristic.detectScope files).length ≤ 15 ∧ Heuristic.capToken (some s) = [] := by
  refine ⟨aux_detectScope_le15 files, ?_⟩
  simp only [Heuristic.capToken]
  have : ¬ s.length ≤ 15 := by omega
  simp [this]

theorem C8_scope_length_bound_witness :
    15 < (str "averylongscopetoken").length ∧
      ((Heuristic.detectScope [⟨str "src/app.ts", FStatus.M, 3, 1, []⟩]).length ≤ 15 ∧
       Heuristic.capToken (some (str "averylongscopetoken")) = []) :=
  ⟨by decide, C8_scope_length_bound [⟨str "src/app.ts", FStatus.M, 3, 1, []⟩]
    (str "averylongscopetoken") (by decide)⟩

/-- C9: Totality and fallback injection — `generateHeuristic` is a total
function that returns at least one candidate on every input (including an
empty file list and empty diff text); `withFallback` injects the literal
`{verb: "update", noun: "files"}` exactly when the filtered description list
is empty and leaves a non-empty list unchanged, so its result is never
empty; and the v2 engine's `buildDescriptions` never produces an empty
list. -/
theorem C9_totality_fallback :
    (∀ (cs : ChangeSet) (cfg : Config), 1 ≤ (Heuristic.generateHeuristic cs cfg).length) ∧
    P1.withFallback [] = [⟨str "update", str "files"⟩] ∧
    (∀ l : List Desc, P1.withFallback l ≠ []) ∧
    (∀ (d : Desc) (l : List Desc), P1.withFallback (d :: l) = d :: l) ∧
    (∀ (files : List FileChange) (type : Str) (pf : Heuristic.PrimaryFocus)
       (scope : Str) (categories : List (Str × Nat)) (variant : Nat),
      Heuristic.buildDescriptions files type pf scope categories variant ≠ []) := by
  refine ⟨fun cs cfg => (aux_gen_bounds cs cfg).1, rfl, ?_, ?_, ?_⟩
  · intro l
    unfold P1.withFallback
    split <;> simp_all
  · intro d l
    simp [P1.withFallback]
  · intro files type pf scope categories variant
    simp [Heuristic.buildDescriptions]

theorem aux_enforce_le (s : Str) (m : Nat) :
    (Generator.enforceMaxLength s m).length ≤ m := by
  simp only [Generator.enforceMaxLength]
  split
  · next h => exact h
  · next h =>
    split
    · split
      · simp only [List.length_take]
        omega
      · simp only [List.length_take]
        omega
    · simp only [List.length_take]
      omega

/-- C10: Output contract, amended — `generateCandidates` is exactly the
heuristic engine's candidate list mapped through `enforceMaxLength` (which
trims, strips trailing periods, and truncates to the maximum length at the
generator layer, outside the engine's rendering); the engine's own output is
independent of the configured maximum length; the list has 1 to 3 entries;
and every returned string fits within the maximum length.  The claim's
first-letter-capitalization clause is refuted by the counterexample: only
plain-style candidates are capitalized, while conventional-commit and
gitmoji candidates begin with a lower-case type keyword or an emoji. -/
theorem C10_output_contract (cs : ChangeSet) (cfg : Config) :
    Generator.generateCandidates cs cfg
      = (Heuristic.generateHeuristic cs cfg).map
          (fun c => Generator.enforceMaxLength c cfg.maxLen) ∧
    (∀ n : Nat, Heuristic.generateHeuristic cs ⟨cfg.msgStyle, cfg.regen, n⟩
      = Heuristic.generateHeuristic cs cfg) ∧
    1 ≤ (Generator.generateCandidates cs cfg).length ∧
    (Generator.generateCandidates cs cfg).length ≤ 3 ∧
    (∀ s ∈ Generator.generateCandidates cs cfg, s.length ≤ cfg.maxLen) := by
  have hb := aux_gen_bounds cs cfg
  refine ⟨rfl, fun n => rfl, ?_, ?_, ?_⟩
  · simpa [Generator.generateCandidates] using hb.1
  · simpa [Generator.generateCandidates] using hb.2.1
  · intro s hs
    simp only [Generator.generateCandidates, List.mem_map] at hs
    obtain ⟨c, -, rfl⟩ := hs
    exact aux_enforce_le c cfg.maxLen

/-- C10 counterexample: on a docs-only ChangeSet with the conventional-commit
style, the first candidate returned through `generateCandidates` is
`docs(docs): README`, whose first letter is not capitalized. -/
theorem C10_output_contract_counterexample :
    (Generator.generateCandidates
        ⟨[⟨str "README.md", FStatus.M, 2, 1, []⟩], [], [], []⟩
        ⟨MsgStyle.conv, 0, 72⟩).head? = some (str "docs(docs): README") ∧
    Heuristic.capitalizeFirst (str "docs(docs): README") ≠ str "docs(docs): README" := by
  constructor
  · decide
  · decide

/-- C5: Documentation significance, amended — whenever at least one docs file
is present, the implemented `docsSignificant` agrees exactly with the
spec-modelled predicate: significant when there are no code files at all, or
when the docs churn weight reaches the threshold fraction (0.6 during an
architectural-refactor-class focus, 0.4 otherwise) of the total churn
weight.  The claim omits the implementation's additional requirement that
the docs subset itself be non-empty, which the counterexample exhibits. -/
theorem C5_docs_significance (docsFiles codeFiles : List FileChange) (φ : P1.P1Focus)
    (h : docsFiles ≠ []) :
    P1.docsSignificant docsFiles codeFiles φ
      = P1.specDocsSignificant docsFiles codeFiles φ := by
  have hl : 0 < docsFiles.length := List.length_pos.mpr h
  rw [Bool.eq_iff_iff]
  simp only [P1.docsSignificant, P1.specDocsSignificant, Bool.and_eq_true, Bool.or_eq_true,
    decide_eq_true_eq]
  cases hA : P1.isArch φ
  · rw [if_neg Bool.false_ne_true, if_neg Bool.false_ne_true]
    omega
  · rw [if_pos rfl, if_pos rfl]
    omega

/-- C5 counterexample: with no docs files and no code files, the
implementation judges the docs subset not significant (its first conjunct
`docsFiles.length > 0` fails), while the claim's wording — no code files at
all — judges it significant. -/
theorem C5_docs_significance_counterexample :
    P1.docsSignificant [] [] P1.P1Focus.generic = false ∧
    P1.specDocsSignificant [] [] P1.P1Focus.generic = true := by decide

theorem C5_docs_significance_witness :
    ([⟨str "README.md", FStatus.M, 2, 1, []⟩] : List FileChange) ≠ [] ∧
    P1.docsSignificant [⟨str "README.md", FStatus.M, 2, 1, []⟩]
        [⟨str "src/app.ts", FStatus.M, 3, 1, []⟩] P1.P1Focus.generic
      = P1.specDocsSignificant [⟨str "README.md", FStatus.M, 2, 1, []⟩]
        [⟨str "src/app.ts", FStatus.M, 3, 1, []⟩] P1.P1Focus.generic :=
  ⟨by decide, C5_docs_significance [⟨str "README.md", FStatus.M, 2, 1, []⟩]
    [⟨str "src/app.ts", FStatus.M, 3, 1, []⟩] P1.P1Focus.generic (by decide)⟩

/-- C3: Change-type cascade, amended — `detectChangeType` equals first-match
evaluation of its actual decision table with default `chore`: docs-only →
docs; manifest dependency entities → chore; refactor-class focus → refactor;
error-handling evidence → fix; added non-doc file or new entities → feat;
fix keywords → fix; test paths → test; refactor keywords → refactor;
style-sheet files → style; lockfile touches → chore.  The docs-only
invariant holds, and the result is always one of the seven conventional
types.  Relative to the claim's ordering, the dependency-chore rule precedes
the focus-refactor rule (the counterexample separates them), there is no
added/deleted replacement-pair rule, no test/style keyword scan of the diff,
and no feat default for a first added file. -/
theorem C3_change_type_cascade (files : List FileChange) (diff : Str)
    (e : P1.Entities) (φ : P1.P1Focus) :
    P1.detectChangeType files diff e φ
      = P1.cascadeEval (str "chore") (P1.p1Rules files diff e φ) ∧
    (files.all (fun f => P1.isDocFile f.path) = true →
      P1.detectChangeType files diff e φ = str "docs") ∧
    P1.detectChangeType files diff e φ ∈ typeList := by
  refine ⟨?_, ?_, ?_⟩
  · simp only [P1.detectChangeType, P1.p1Rules, P1.cascadeEval, decide_eq_true_eq]
  · intro h
    simp [P1.detectChangeType, h]
  · unfold P1.detectChangeType
    repeat' split
    all_goals decide

/-- C3 counterexample: one modified non-doc code file, a touched manifest
dependency, and an engine-refactor focus — the implementation's cascade
reaches its dependency rule first and answers `chore`, while the claim's
ordering puts the architectural-refactor rule before the dependency rule and
answers `refactor`. -/
theorem C3_change_type_cascade_counterexample :
    P1.detectChangeType [⟨str "src/app.ts", FStatus.M, 3, 1, []⟩] []
        ⟨[], [], [], [], [str "lodash"], false⟩ P1.P1Focus.engineRefactor = str "chore" ∧
    P1.specCascade [⟨str "src/app.ts", FStatus.M, 3, 1, []⟩] []
        ⟨[], [], [], [], [str "lodash"], false⟩ P1.P1Focus.engineRefactor = str "refactor" ∧
    (str "chore" : Str) ≠ str "refactor" :=
  ⟨by decide, by decide, by decide⟩

/-- C6: Variant rotation of descriptions, amended — for every non-empty
description list and every variant, the primary (first) description is the
entry at index `variant % length`, the full result is that entry followed by
the entries *before* it and then the entries *after* it, and the result is a
permutation of the input list.  The claim's stronger wording — that the
remainder continues with the entries after the primary, i.e. a rotation —
is refuted by the counterexample: the implementation emits the entries
before the primary first. -/
theorem C6_variant_rotation (l : List Desc) (v : Nat) (h : 0 < l.length) :
    (P1.reorderDescriptions l v).head?
        = some (l.getD (v % l.length) ⟨str "update", str "files"⟩) ∧
    P1.reorderDescriptions l v
      = l.getD (v % l.length) ⟨str "update", str "files"⟩ ::
          (l.take (v % l.length) ++ l.drop (v % l.length + 1)) ∧
    (P1.reorderDescriptions l v).Perm l := by
  have hp : v % l.length < l.length := Nat.mod_lt _ h
  have hne : l.isEmpty = false := by
    cases l with
    | nil => simp at h
    | cons a as => rfl
  have he : P1.reorderDescriptions l v
      = l.getD (v % l.length) ⟨str "update", str "files"⟩ ::
          (l.take (v % l.length) ++ l.drop (v % l.length + 1)) := by
    simp [P1.reorderDescriptions, hne]
  refine ⟨by rw [he]; rfl, he, ?_⟩
  rw [he, List.getD_eq_getElem _ _ hp]
  have hs2 : l.take (v % l.length) ++ l[v % l.length] :: l.drop (v % l.length + 1) = l := by
    rw [List.getElem_cons_drop l _ hp, List.take_append_drop]
  have hperm : (l[v % l.length] ::
      (l.take (v % l.length) ++ l.drop (v % l.length + 1))).Perm
        (l.take (v % l.length) ++ l[v % l.length] :: l.drop (v % l.length + 1)) :=
    List.perm_middle.symm
  rw [hs2] at hperm
  exact hperm

/-- C6 counterexample: on the three-element list `exDescs` with variant 1,
the implementation returns the primary followed by the element before it and
then the element after it, which is not the rotation the claim describes. -/
theorem C6_variant_rotation_counterexample :
    P1.reorderDescriptions exDescs 1 ≠ P1.specRotation exDescs 1 := by decide

theorem C6_variant_rotation_witness :
    0 < exDescs.length ∧
      ((P1.reorderDescriptions exDescs 1).head?
          = some (exDescs.getD (1 % exDescs.length) ⟨str "update", str "files"⟩) ∧
       P1.reorderDescriptions exDescs 1
         = exDescs.getD (1 % exDescs.length) ⟨str "update", str "files"⟩ ::
             (exDescs.take (1 % exDescs.length) ++ exDescs.drop (1 % exDescs.length + 1)) ∧
       (P1.reorderDescriptions exDescs 1).Perm exDescs) :=
  ⟨by decide, C6_variant_rotation exDescs 1 (by decide)⟩
